/-
Verification of the route-construction core of a vehicle-routing program.

The development shallowly embeds the two central classes of the program,
`Matrix` (a distance index with occupancy tracking) and `Truck` (a
per-vehicle route-building state machine), together with the per-vehicle
search driver (`TruckProcessor.iteration`) and the output-line formatter.

Modelling conventions:
  * Python ints are modelled as `Int` wherever subtraction matters
    (fuel, accumulated distance, cargo, the occupied-N counter); matrix
    entries are `Nat` (the input format only provides non-negative
    distances) and are cast to `Int` where the program subtracts.
  * The occupancy set is a `Finset Nat`; `set.add`/`set.remove` become
    `insert`/`erase`.  A failing `set.remove` (Python `KeyError`) is
    modelled by `Matrix.free` returning the mutated-so-far state paired
    with `false`.
  * Exceptions that escape a method (`Exception`, `IndexError`,
    `KeyError`) are modelled by `Option`/sum results: `none` means the
    computation aborted.  `StopIteration`, which the program uses as
    control flow, is modelled structurally (a dedicated constructor of
    `TryOut`, or `none` from `nearest_point`).
  * Unbounded `while` loops are modelled by structural recursion with an
    explicit fuel argument; running out of fuel yields `none` (this also
    covers the genuinely divergent corner of `_unload_one`).  The
    wall-clock 7-second cutoff of the alternatives loop is likewise
    modelled by a fuel bound, and the `random.randrange` draw by an
    oracle function.
  * The distance dictionary `_distances` and the tuple
    `_closest_distances`, which Python precomputes in `__init__` and
    never mutates afterwards, are modelled as total functions of the
    stored distance matrix (`distKeys`, `targetsAt`,
    `closest_distances`).
-/
import Mathlib

namespace Marathon

/-- The `PointRestriction` enum of the program. -/
inductive PointRestriction where
  | N
  | M
deriving DecidableEq, Repr

/-- `PointRestriction.get`: `N` when cargo is zero, `M` when cargo is at
capacity, and no restriction (`none`) strictly in between. -/
def PointRestriction.get (cargo capacity : Int) : Option PointRestriction :=
  if cargo = 0 then some PointRestriction.N
  else if cargo = capacity then some PointRestriction.M
  else none

/-- `Matrix.CLOSEST_DISTANCE_RANGE`. -/
def CLOSEST_DISTANCE_RANGE : Nat := 10

/-- The `Matrix` class: point counts, the raw distance table, the occupancy
set `_used` and the occupied-N counter `_used_n`. -/
structure Matrix where
  n : Nat
  m : Nat
  mat : List (List Nat)
  used : Finset Nat
  used_n : Int
deriving DecidableEq

/-- `Matrix.__init__`: a fresh matrix with empty occupancy. -/
def Matrix.init (n m : Nat) (mat : List (List Nat)) : Matrix :=
  { n := n, m := m, mat := mat, used := ∅, used_n := 0 }

/-- `Matrix.is_used`. -/
def Matrix.is_used (mx : Matrix) (point : Nat) : Bool :=
  decide (point ∈ mx.used)

/-- `Matrix.is_n_point`: `0 < point ≤ n`. -/
def Matrix.is_n_point (mx : Matrix) (point : Nat) : Bool :=
  decide (0 < point ∧ point ≤ mx.n)

/-- `Matrix.is_m_point`: `n < point ≤ n + m`. -/
def Matrix.is_m_point (mx : Matrix) (point : Nat) : Bool :=
  decide (mx.n < point ∧ point ≤ mx.n + mx.m)

/-- `Matrix.use`: fails (raises) when the point is already occupied,
otherwise increments the occupied-N counter for N-points and inserts the
point into the occupancy set. -/
def Matrix.use (mx : Matrix) (point : Nat) : Option Matrix :=
  if mx.is_used point then none
  else some { mx with
    used_n := if mx.is_n_point point then mx.used_n + 1 else mx.used_n,
    used := insert point mx.used }

/-- `Matrix.free`: first decrements the occupied-N counter for N-points,
then removes the point from the occupancy set.  The Boolean is `false`
when the removal raises `KeyError` (point not occupied); the returned
matrix is the state at the moment of the raise, which already carries the
decremented counter. -/
def Matrix.free (mx : Matrix) (point : Nat) : Matrix × Bool :=
  let mx1 := if mx.is_n_point point then { mx with used_n := mx.used_n - 1 } else mx
  if mx1.is_used point then ({ mx1 with used := mx1.used.erase point }, true)
  else (mx1, false)

/-- `Matrix.get_used_n_points`. -/
def Matrix.get_used_n_points (mx : Matrix) : Int := mx.used_n

/-- `Matrix.have_free_n_points`: `_used_n < _n`. -/
def Matrix.have_free_n_points (mx : Matrix) : Bool :=
  decide (mx.used_n < (mx.n : Int))

/-- `Matrix.distance`: entry of the raw table (out-of-range reads, which
would raise in Python, default to 0; no claim exercises them). -/
def Matrix.distance (mx : Matrix) (point1 point2 : Nat) : Nat :=
  (mx.mat.getD point1 []).getD point2 0

/-- Length of row `point` of the raw table. -/
def Matrix.rowLen (mx : Matrix) (point : Nat) : Nat :=
  (mx.mat.getD point []).length

/-- The candidate targets the `__init__` loop indexes for a source point:
every column of its row except the point itself and the depot 0, in
ascending order. -/
def Matrix.rowTargets (mx : Matrix) (point : Nat) : List Nat :=
  (List.range (mx.rowLen point)).filter (fun q => decide (q ≠ point ∧ q ≠ 0))

/-- The targets stored in `_distances[point][d]`: the row targets whose
table distance is exactly `d`, ascending. -/
def Matrix.targetsAt (mx : Matrix) (point d : Nat) : List Nat :=
  (mx.rowTargets point).filter (fun q => decide (mx.distance point q = d))

/-- The key list of `_distances[point]`: the distinct distances occurring
among the row targets, in ascending order. -/
def Matrix.distKeys (mx : Matrix) (point : Nat) : List Nat :=
  (((mx.rowTargets point).map (mx.distance point)).dedup).insertionSort (· ≤ ·)

/-- `_closest_distances[point]`: the keys within
`CLOSEST_DISTANCE_RANGE` times the smallest key. -/
def Matrix.closest_distances (mx : Matrix) (point : Nat) : List Nat :=
  match mx.distKeys point with
  | [] => []
  | c :: _ => (mx.distKeys point).filter (fun d => decide (d ≤ CLOSEST_DISTANCE_RANGE * c))

/-- The inner `point_allowed` predicate of `nearest_point`. -/
def point_allowed (mx : Matrix) (pr : Option PointRestriction) (target : Nat) : Bool :=
  match pr with
  | none => true
  | some PointRestriction.N => mx.is_n_point target
  | some PointRestriction.M => mx.is_m_point target

/-- The filtered target tuple `nearest_point` builds for one candidate
distance: unused and kind-allowed targets at that distance. -/
def Matrix.availTargets (mx : Matrix) (pr : Option PointRestriction) (point d : Nat) : List Nat :=
  (mx.targetsAt point d).filter (fun t => (! mx.is_used t) && point_allowed mx pr t)

/-- The key sequence `nearest_point` scans: the whole key list, or the
keys equal to the forced distance when one is given. -/
def Matrix.searchKeys (mx : Matrix) (point : Nat) (force_distance : Option Nat) : List Nat :=
  match force_distance with
  | some f => (mx.distKeys point).filter (fun d => decide (d = f))
  | none => mx.distKeys point

/-- The candidate-distance predicate of the `next(...)` generator inside
`nearest_point`: within the bound and with at least one unused allowed
target. -/
def Matrix.npPred (mx : Matrix) (pr : Option PointRestriction) (point : Nat)
    (maximum_distance : Int) (d : Nat) : Bool :=
  decide ((d : Int) ≤ maximum_distance) && ! (mx.availTargets pr point d).isEmpty

/-- `Matrix.nearest_point`: scans the key list in ascending order
(restricted to exactly `force_distance` when given), takes the first
distance within `maximum_distance` that still has an unused allowed
target, and returns all such targets at that distance together with the
closest-range flag.  `none` models the escaping `StopIteration`. -/
def Matrix.nearest_point (mx : Matrix) (point : Nat) (maximum_distance : Int)
    (pr : Option PointRestriction) (force_distance : Option Nat) :
    Option (List Nat × Nat × Bool) :=
  match (mx.searchKeys point force_distance).find? (mx.npPred pr point maximum_distance) with
  | none => none
  | some d =>
      let targets := mx.availTargets pr point d
      if targets.isEmpty then none
      else some (targets, d, decide (d ∈ mx.closest_distances point))

/-- The scanning loop of `Matrix.get_initial_closest_distances`: walk the
depot key list; once the first key with an unused target is found, either
early-return the precomputed closest set (when that key is the global
minimum) or collect keys up to `CLOSEST_DISTANCE_RANGE` times it. -/
def Matrix.icl_go (mx : Matrix) : List Nat → Option Nat → List Nat → List Nat
  | [], _, acc => acc.reverse
  | d :: rest, some c, acc =>
      if CLOSEST_DISTANCE_RANGE * c < d then acc.reverse
      else mx.icl_go rest (some c) (d :: acc)
  | d :: rest, none, acc =>
      if (mx.availTargets none 0 d).isEmpty then mx.icl_go rest none acc
      else if (mx.closest_distances 0).headD 0 = d ∧ ¬ (mx.closest_distances 0).isEmpty then
        mx.closest_distances 0
      else if CLOSEST_DISTANCE_RANGE * d < d then acc.reverse
      else mx.icl_go rest (some d) (d :: acc)

/-- `Matrix.get_initial_closest_distances`.  The method first evaluates a
`next(...)` expression that raises `StopIteration` when no depot distance
has an unused target; that escape is the `none` case. -/
def Matrix.get_initial_closest_distances (mx : Matrix) : Option (List Nat) :=
  if (mx.distKeys 0).any (fun d => ! (mx.availTargets none 0 d).isEmpty) then
    some (mx.icl_go (mx.distKeys 0) none [])
  else none

/-- The `Truck` class state: identity, budgets, the route built so far,
the shared distance index, the replay hint, and the three
load/unload-control fields.  The logger and the `_order` comparator mode
play no role in route construction and are omitted. -/
structure Truck where
  k : Nat
  fuel : Int
  distance : Int
  matrix : Matrix
  hint : List Nat
  hint_used : Bool
  initial_distance : Option Nat
  route : List Nat
  alternatives : List (List Nat)
  done : Bool
  cargo : Int
  capacity : Int
  unloading : Bool
  safepoint : Nat
deriving DecidableEq

/-- `Truck.__init__`. -/
def Truck.init (k : Nat) (fuel : Int) (mx : Matrix) (hint : List Nat)
    (initial_distance : Option Nat) : Truck :=
  { k := k, fuel := fuel, distance := 0, matrix := mx, hint := hint,
    hint_used := false, initial_distance := initial_distance, route := [],
    alternatives := [], done := false, cargo := 0, capacity := 25,
    unloading := false, safepoint := 0 }

/-- `Truck.get_position`: the route tail, or the depot 0 for an empty
route. -/
def Truck.get_position (t : Truck) : Nat := t.route.getLastD 0

/-- `Truck.get_route`. -/
def Truck.get_route (t : Truck) : List Nat := t.route

/-- `Truck.get_matrix`. -/
def Truck.get_matrix (t : Truck) : Matrix := t.matrix

/-- The restriction argument `Truck.calculate` passes to `nearest_point`:
`PointRestriction.get(cargo, capacity)` normally, `M` while unloading. -/
def Truck.queryRestriction (t : Truck) : Option PointRestriction :=
  if ! t.unloading then PointRestriction.get t.cargo t.capacity
  else some PointRestriction.M

/-- `Truck._add_route_point`: append, add the distance, adjust cargo by
the point kind, then mark the point used (`none` when `Matrix.use`
raises). -/
def Truck.add_route_point (t : Truck) (point : Nat) (distance : Int) : Option Truck :=
  let t1 := { t with
    route := t.route ++ [point],
    distance := t.distance + distance,
    cargo := if t.matrix.is_n_point point then t.cargo + 1 else t.cargo - 1 }
  match t1.matrix.use point with
  | none => none
  | some mx => some { t1 with matrix := mx }

/-- Sum of consecutive-pair distances inside a point list (used by
`Truck.get_alternatives`). -/
def pairDist (mx : Matrix) : List Nat → Nat
  | [] => 0
  | [_] => 0
  | a :: b :: rest => mx.distance a b + pairDist mx (b :: rest)

/-- `Truck.get_alternatives`: the recorded alternatives whose internal
distance is below 15 percent of the fuel budget.  The Python comparison
`sum / fuel < 0.15` is modelled exactly on the rationals as
`20 * sum < 3 * fuel`. -/
def Truck.get_alternatives (t : Truck) : List (List Nat) :=
  t.alternatives.filter (fun a => decide (20 * (pairDist t.matrix a : Int) < 3 * t.fuel))

/-- One iteration of the pop loop in `Truck.unload`: pop the tail, free
it, subtract the distance from the new position, and reverse the cargo
delta; `none` models the `IndexError` escape on an empty route and the
`KeyError` escape of a failing `free`. -/
def Truck.unloadLoop : Nat → Truck → Int → Option Truck
  | 0, t, tgt => if (t.route.length : Int) = tgt + 1 then some t else none
  | loopFuel + 1, t, tgt =>
      if (t.route.length : Int) = tgt + 1 then some t
      else
        match t.route.getLast? with
        | none => none
        | some position =>
            if (t.matrix.free position).2 then
              Truck.unloadLoop loopFuel
                { t with
                  route := t.route.dropLast,
                  matrix := (t.matrix.free position).1,
                  distance := t.distance -
                    ((t.matrix.free position).1.distance (t.route.dropLast.getLastD 0) position : Int),
                  cargo := if (t.matrix.free position).1.is_m_point position then t.cargo + 1
                    else t.cargo - 1 }
                tgt
            else none

/-- `Truck.unload(to)`: no-op on an empty route with negative target,
`none` (the "Wrong unload index" exception) when the target does not cut
strictly inside the route, otherwise pop down to length `to + 1`. -/
def Truck.unload (t : Truck) (tgt : Int) : Option Truck :=
  if t.route.isEmpty ∧ tgt < 0 then some t
  else if (t.route.length : Int) - 1 ≤ tgt then none
  else Truck.unloadLoop (t.route.length + 1) t tgt

/-- The loop of `Truck._unload_one`: repeatedly `unload(len(route) - 2)`
(one pop) until the popped point was an N-point.  The fuel argument
covers the divergent corner where the route empties on an M-point. -/
def Truck.unload_one_go : Nat → Truck → Option Truck
  | 0, _ => none
  | loopFuel + 1, t =>
      let position := t.get_position
      match t.unload ((t.route.length : Int) - 2) with
      | none => none
      | some t1 =>
          if t1.matrix.is_n_point position then some t1
          else Truck.unload_one_go loopFuel t1

/-- `Truck._unload_one`. -/
def Truck.unload_one (t : Truck) : Option Truck :=
  Truck.unload_one_go (t.route.length + 1) t

/-- Outcome of the `try` body of one `Truck.calculate` loop iteration:
normal completion, an escaping `StopIteration` (with the state at the
raise), or a fatal exception. -/
inductive TryOut where
  | ok (t : Truck)
  | stop (t : Truck)
  | exc
deriving DecidableEq

/-- The alternatives-recording step of the query branch: with more than
two candidates at a closest-range distance, append one alternative (the
current route plus that candidate) per candidate beyond the first. -/
def Truck.recordAlternatives (t : Truck) (points : List Nat) (closest : Bool) : Truck :=
  if points.length > 2 ∧ closest then
    { t with alternatives :=
        t.alternatives ++ (points.drop 1).map (fun b => t.route ++ [b]) }
  else t

/-- The `if self._unloading: self._unloading = False` step that follows
every successful route extension. -/
def clearUnloading (t : Truck) : Truck :=
  if t.unloading then { t with unloading := false } else t

/-- The route-extension part of the `calculate` loop body: replay the
hint when one is still pending, otherwise query `nearest_point` (with the
forced first-hop distance at route length 0), record alternatives when
more than two closest-range candidates were returned, and commit the
chosen point. -/
def Truck.extendStep (t : Truck) : TryOut :=
  if ! t.hint_used ∧ t.hint.length ≥ t.route.length + 1 then
    let point := t.hint.getD t.route.length 0
    if t.matrix.is_used point then TryOut.exc
    else
      match t.add_route_point (point) ((t.matrix.distance t.get_position point : Nat) : Int) with
      | none => TryOut.exc
      | some t1 => TryOut.ok (clearUnloading t1)
  else
    let t2 := { t with hint_used := true }
    match t2.matrix.nearest_point t2.get_position (t2.fuel - t2.distance)
        t2.queryRestriction
        (if t2.route.length = 0 then t2.initial_distance else none) with
    | none => TryOut.stop t2
    | some (points, d, closest) =>
        match (t2.recordAlternatives points closest).add_route_point
            (points.headD 0) ((d : Nat) : Int) with
        | none => TryOut.exc
        | some t4 => TryOut.ok (clearUnloading t4)

/-- The `try` body of one `calculate` loop iteration, including the
cargo-0 guard block (global N-exhaustion check and the stuck-unload
safepoint check). -/
def Truck.tryBody (t : Truck) : TryOut :=
  if t.cargo = 0 then
    if ! t.matrix.have_free_n_points then TryOut.stop t
    else if t.unloading then
      if t.safepoint ≠ t.get_position then
        Truck.extendStep { t with safepoint := t.get_position, unloading := false }
      else TryOut.stop t
    else t.extendStep
  else t.extendStep

/-- One full iteration of the `while not done` loop of `Truck.calculate`:
run the body; on `StopIteration` either finish (cargo 0) or enter
unloading mode and shed one load. -/
def Truck.calcStep (t : Truck) : Option Truck :=
  match t.tryBody with
  | TryOut.ok t1 => some t1
  | TryOut.exc => none
  | TryOut.stop t1 =>
      if t1.cargo = 0 then some { t1 with done := true }
      else ({ t1 with unloading := true }).unload_one

/-- `Truck.calculate`, fuelled: iterate `calcStep` at most `k` times,
stopping at the `done` flag exactly as the `while` loop does. -/
def Truck.calcSteps : Nat → Truck → Option Truck
  | 0, t => some t
  | k + 1, t =>
      if t.done then some t
      else
        match t.calcStep with
        | none => none
        | some t1 => Truck.calcSteps k t1

namespace TruckProcessor

/-- The `alternative_used` dedup filter of `process_truck`, folded over a
batch: keep the alternatives not yet seen, adding each kept one to the
seen set.  The Python set stores `hash(tuple(a))`; the model stores the
sequences themselves (hash collisions are ignored). -/
def dedupNew (seen : Finset (List Nat)) : List (List Nat) → List (List Nat) × Finset (List Nat)
  | [] => ([], seen)
  | a :: rest =>
      if a ∈ seen then dedupNew seen rest
      else
        let r := dedupNew (insert a seen) rest
        (a :: r.1, r.2)

/-- `process_truck` of `TruckProcessor.iteration`: run the truck to
completion, report `(used-N count, route copy)` when it beats the best
seen so far with a non-empty route, harvest unseen alternatives, and
fully unload the truck.  `stepFuel` bounds the `calculate` loop; a run
that does not reach `done` within it aborts (`none`). -/
def process_truck (t : Truck) (alts : List (List Nat)) (seen : Finset (List Nat))
    (best : Int) (stepFuel : Nat) :
    Option (Option Int × Option (List Nat) × List (List Nat) × Finset (List Nat) × Matrix) :=
  match Truck.calcSteps stepFuel t with
  | none => none
  | some t1 =>
      if ! t1.done then none
      else
        let mx := t1.get_matrix
        let result : Option Int × Option (List Nat) :=
          if best < mx.get_used_n_points ∧ ¬ t1.get_route.isEmpty then
            (some mx.get_used_n_points, some t1.get_route)
          else (none, none)
        let harvested := dedupNew seen t1.get_alternatives
        match t1.unload (-1) with
        | none => none
        | some t2 => some (result.1, result.2, alts ++ harvested.1, harvested.2, t2.get_matrix)

/-- Python truthiness of `if result and route:`: the score must be
non-zero and the route non-empty. -/
def takeBetter (best : Int) (bestRoute : List Nat) :
    Option Int × Option (List Nat) → Int × List Nat
  | (some r, some rt) => if r ≠ 0 ∧ ¬ rt.isEmpty then (r, rt) else (best, bestRoute)
  | (_, _) => (best, bestRoute)

/-- The seed loop of `iteration`: one `process_truck` per forced initial
distance (the depot closest distances followed by `none`). -/
def seedLoop (index : Nat) (restr : Int) (stepFuel : Nat) :
    List (Option Nat) → Matrix → List (List Nat) → Finset (List Nat) → Int → List Nat →
    Option (Matrix × List (List Nat) × Finset (List Nat) × Int × List Nat)
  | [], mx, alts, seen, best, bestRoute => some (mx, alts, seen, best, bestRoute)
  | s :: rest, mx, alts, seen, best, bestRoute =>
      match process_truck (Truck.init index restr mx [] s) alts seen best stepFuel with
      | none => none
      | some (result, route, alts1, seen1, mx1) =>
          let b := takeBetter best bestRoute (result, route)
          seedLoop index restr stepFuel rest mx1 alts1 seen1 b.1 b.2

/-- The alternatives-exploration loop of `iteration`.  The pop index
alternates front (counter divisible by 3), back (even counter), and a
random draw, the latter modelled by the `oracle`.  `loopFuel` bounds the
loop in place of the 7-second wall-clock cutoff; exhausting it with
alternatives still pending aborts (`none`). -/
def altLoop (index : Nat) (restr : Int) (stepFuel : Nat) (oracle : Nat → Nat) :
    Nat → Nat → Matrix → List (List Nat) → Finset (List Nat) → Int → List Nat →
    Option (Matrix × Int × List Nat)
  | 0, _, mx, alts, _, best, bestRoute =>
      if alts.isEmpty then some (mx, best, bestRoute) else none
  | loopFuel + 1, counter, mx, alts, seen, best, bestRoute =>
      if alts.isEmpty then some (mx, best, bestRoute)
      else
        let i := if counter % 3 = 0 then 0
          else if counter % 2 = 0 then alts.length - 1
          else (oracle counter) % alts.length
        let a := alts.getD i []
        let alts1 := alts.take i ++ alts.drop (i + 1)
        match process_truck (Truck.init index restr mx a none) alts1 seen best stepFuel with
        | none => none
        | some (result, route, alts2, seen2, mx2) =>
            let b := takeBetter best bestRoute (result, route)
            altLoop index restr stepFuel oracle loopFuel (counter + 1) mx2 alts2 seen2 b.1 b.2

/-- The per-truck body of `iteration`: seed attempts, alternative
exploration, and the final deterministic hint replay that commits the
best route to the shared matrix. -/
def iterationOne (index : Nat) (restr : Int) (stepFuel loopFuel : Nat) (oracle : Nat → Nat)
    (mx : Matrix) : Option (Matrix × List Nat) :=
  match mx.get_initial_closest_distances with
  | none => none
  | some seeds =>
      match seedLoop index restr stepFuel (seeds.map some ++ [none]) mx [] ∅ 0 [] with
      | none => none
      | some (mx1, alts, seen, best, bestRoute) =>
          match altLoop index restr stepFuel oracle loopFuel 0 mx1 alts seen best bestRoute with
          | none => none
          | some (mx2, _, bestRoute2) =>
              match Truck.calcSteps stepFuel (Truck.init index restr mx2 bestRoute2 none) with
              | none => none
              | some tf => if tf.done then some (tf.get_matrix, bestRoute2) else none

/-- The truck-id fold of `iteration`. -/
def iterationGo (restrictions : List Int) (stepFuel loopFuel : Nat) (oracle : Nat → Nat) :
    List Nat → Matrix → List (Nat × List Nat) → Option (Matrix × List (Nat × List Nat))
  | [], mx, acc => some (mx, acc.reverse)
  | index :: rest, mx, acc =>
      match iterationOne index (restrictions.getD index 0) stepFuel loopFuel oracle mx with
      | none => none
      | some (mx1, route) =>
          iterationGo restrictions stepFuel loopFuel oracle rest mx1 ((index, route) :: acc)

/-- `TruckProcessor.iteration`: build the shared matrix, process the
trucks in the given order, and return the achieved score (occupied
N-points) with the per-truck best routes. -/
def iteration (truck_ids : List Nat) (n m : Nat) (matrix_raw : List (List Nat))
    (restrictions : List Int) (stepFuel loopFuel : Nat) (oracle : Nat → Nat) :
    Option (Int × List (Nat × List Nat)) :=
  match iterationGo restrictions stepFuel loopFuel oracle truck_ids (Matrix.init n m matrix_raw) [] with
  | none => none
  | some (mx, routes) => some (mx.get_used_n_points, routes)

end TruckProcessor

/-- One output line of `Input.calculate`:
`" ".join(map(str, [len(route)] + route))`. -/
def outputLine (route : List Nat) : String :=
  String.intercalate " " ((route.length :: route).map (fun x => toString x))

theorem is_used_true_iff (mx : Matrix) (p : Nat) : mx.is_used p = true ↔ p ∈ mx.used := by
  simp [Matrix.is_used]

theorem is_used_false_iff (mx : Matrix) (p : Nat) : mx.is_used p = false ↔ p ∉ mx.used := by
  simp [Matrix.is_used]

theorem is_n_point_iff (mx : Matrix) (p : Nat) :
    mx.is_n_point p = true ↔ 0 < p ∧ p ≤ mx.n := by
  simp [Matrix.is_n_point]

theorem is_m_point_iff (mx : Matrix) (p : Nat) :
    mx.is_m_point p = true ↔ mx.n < p ∧ p ≤ mx.n + mx.m := by
  simp [Matrix.is_m_point]

/-- A point is never both an N-point and an M-point. -/
theorem not_n_and_m (mx : Matrix) (p : Nat) :
    ¬ (mx.is_n_point p = true ∧ mx.is_m_point p = true) := by
  simp only [is_n_point_iff, is_m_point_iff]
  omega

theorem mem_rowTargets (mx : Matrix) (p q : Nat) :
    q ∈ mx.rowTargets p ↔ q < mx.rowLen p ∧ q ≠ p ∧ q ≠ 0 := by
  simp [Matrix.rowTargets, List.mem_filter, and_assoc]

theorem mem_targetsAt (mx : Matrix) (p d q : Nat) :
    q ∈ mx.targetsAt p d ↔ q ∈ mx.rowTargets p ∧ mx.distance p q = d := by
  simp [Matrix.targetsAt, List.mem_filter]

theorem mem_availTargets (mx : Matrix) (pr : Option PointRestriction) (p d q : Nat) :
    q ∈ mx.availTargets pr p d ↔
      q ∈ mx.rowTargets p ∧ mx.distance p q = d ∧ q ∉ mx.used ∧
        point_allowed mx pr q = true := by
  simp [Matrix.availTargets, List.mem_filter, mem_targetsAt, Matrix.is_used, and_assoc]

theorem mem_distKeys (mx : Matrix) (p d : Nat) :
    d ∈ mx.distKeys p ↔ ∃ q ∈ mx.rowTargets p, mx.distance p q = d := by
  simp [Matrix.distKeys, List.mem_insertionSort, List.mem_dedup, List.mem_map]

theorem distKeys_sorted (mx : Matrix) (p : Nat) :
    List.Sorted (· ≤ ·) (mx.distKeys p) :=
  List.sorted_insertionSort _ _

theorem mem_searchKeys (mx : Matrix) (p d : Nat) (fd : Option Nat) :
    d ∈ mx.searchKeys p fd ↔
      d ∈ mx.distKeys p ∧ (∀ f, fd = some f → d = f) := by
  cases fd with
  | none => simp [Matrix.searchKeys]
  | some f =>
      simp only [Matrix.searchKeys, List.mem_filter, decide_eq_true_eq]
      constructor
      · rintro ⟨hm, rfl⟩
        exact ⟨hm, fun g hg => Option.some.inj hg⟩
      · rintro ⟨hm, hf⟩
        exact ⟨hm, hf f rfl⟩

theorem searchKeys_sorted (mx : Matrix) (p : Nat) (fd : Option Nat) :
    List.Sorted (· ≤ ·) (mx.searchKeys p fd) := by
  cases fd with
  | none => exact distKeys_sorted mx p
  | some f => exact (distKeys_sorted mx p).filter _

/-- `find?` on a `≤`-sorted list returns a minimum among the elements
satisfying the predicate. -/
theorem find?_min_of_sorted {l : List Nat} {pred : Nat → Bool} {d : Nat}
    (hs : List.Sorted (· ≤ ·) l) (h : l.find? pred = some d) :
    ∀ x ∈ l, pred x = true → d ≤ x := by
  induction l with
  | nil => simp at h
  | cons a l ih =>
      by_cases hp : pred a = true
      · rw [List.find?_cons_of_pos _ hp] at h
        injection h with h
        subst h
        intro x hx _
        rcases List.mem_cons.mp hx with rfl | hx
        · exact le_refl x
        · exact (List.sorted_cons.mp hs).1 x hx
      · rw [List.find?_cons_of_neg _ (by simpa using hp)] at h
        intro x hx hpx
        rcases List.mem_cons.mp hx with rfl | hx
        · exact absurd hpx hp
        · exact ih (List.sorted_cons.mp hs).2 h x hx hpx

/-- Full characterisation of a successful `nearest_point` call. -/
theorem nearest_point_eq_some {mx : Matrix} {p : Nat} {maxd : Int}
    {pr : Option PointRestriction} {fd : Option Nat} {ts : List Nat} {d : Nat} {cl : Bool}
    (h : mx.nearest_point p maxd pr fd = some (ts, d, cl)) :
    ts = mx.availTargets pr p d ∧ ts ≠ [] ∧ (d : Int) ≤ maxd ∧ d ∈ mx.distKeys p ∧
      (∀ f, fd = some f → d = f) ∧
      (fd = none → ∀ x ∈ mx.distKeys p,
        (x : Int) ≤ maxd → mx.availTargets pr p x ≠ [] → d ≤ x) ∧
      (cl = true ↔ d ∈ mx.closest_distances p) := by
  unfold Matrix.nearest_point at h
  cases hf : (mx.searchKeys p fd).find? (mx.npPred pr p maxd) with
  | none => rw [hf] at h; exact absurd h (by simp)
  | some d0 =>
      rw [hf] at h
      dsimp only at h
      have hpred := List.find?_some hf
      have hmem := List.mem_of_find?_eq_some hf
      simp only [Matrix.npPred, Bool.and_eq_true, decide_eq_true_eq, Bool.not_eq_true',
        List.isEmpty_eq_false] at hpred
      by_cases he : (mx.availTargets pr p d0).isEmpty
      · rw [if_pos he] at h
        exact absurd h (by simp)
      · rw [if_neg he] at h
        simp only [Option.some.injEq, Prod.mk.injEq] at h
        obtain ⟨h1, h2, h3⟩ := h
        subst h2
        subst h1
        subst h3
        rcases (mem_searchKeys mx p d0 fd).mp hmem with ⟨hdk, hfd⟩
        refine ⟨rfl, hpred.2, hpred.1, hdk, hfd, ?_, by simp⟩
        intro hnone x hx hxle hxne
        apply find?_min_of_sorted (searchKeys_sorted mx p fd) hf
        · subst hnone; exact hx
        · simp [Matrix.npPred, hxle, List.isEmpty_eq_false, hxne]

/-- Characterisation of an exhausted (`StopIteration`) `nearest_point`
call. -/
theorem nearest_point_eq_none_iff (mx : Matrix) (p : Nat) (maxd : Int)
    (pr : Option PointRestriction) (fd : Option Nat) :
    mx.nearest_point p maxd pr fd = none ↔
      ∀ x ∈ mx.searchKeys p fd,
        ¬ ((x : Int) ≤ maxd ∧ mx.availTargets pr p x ≠ []) := by
  unfold Matrix.nearest_point
  cases hf : (mx.searchKeys p fd).find? (mx.npPred pr p maxd) with
  | none =>
      simp only [true_iff]
      intro x hx hcl
      have := List.find?_eq_none.mp hf x hx
      simp [Matrix.npPred, hcl.1, List.isEmpty_eq_false, hcl.2] at this
  | some d0 =>
      have hpred := List.find?_some hf
      have hmem := List.mem_of_find?_eq_some hf
      simp only [Matrix.npPred, Bool.and_eq_true, decide_eq_true_eq, Bool.not_eq_true',
        List.isEmpty_eq_false] at hpred
      dsimp only
      rw [if_neg (by simpa [List.isEmpty_eq_false] using hpred.2)]
      refine iff_of_false (by simp) ?_
      intro hall
      exact hall d0 hmem ⟨hpred.1, hpred.2⟩

/-- A target that `nearest_point` may legitimately return for source `p`:
a row index other than the source and the depot, currently unused and
allowed by the kind restriction. -/
def FeasibleTarget (mx : Matrix) (pr : Option PointRestriction) (p q : Nat) : Prop :=
  q ∈ mx.rowTargets p ∧ q ∉ mx.used ∧ point_allowed mx pr q = true

/-- C4: a successful `nearest_point` call returns a distance within the
bound (equal to the forced distance when one was given), all feasible
targets at exactly that distance (at least one), the minimality of that
distance over all feasible targets in the unforced case, and the
closest-range membership flag; the call returns `none` (the
`StopIteration` escape) exactly when no feasible target matches the bound
and the optional forced distance. -/
theorem nearest_point_spec (mx : Matrix) (p : Nat) (maxd : Int)
    (pr : Option PointRestriction) (fd : Option Nat) :
    (∀ ts d cl, mx.nearest_point p maxd pr fd = some (ts, d, cl) →
      (d : Int) ≤ maxd ∧
      (∀ f, fd = some f → d = f) ∧
      ts ≠ [] ∧
      (∀ q, q ∈ ts ↔ FeasibleTarget mx pr p q ∧ mx.distance p q = d) ∧
      (fd = none → ∀ q, FeasibleTarget mx pr p q → d ≤ mx.distance p q) ∧
      (cl = true ↔ d ∈ mx.closest_distances p)) ∧
    (mx.nearest_point p maxd pr fd = none ↔
      ∀ q, FeasibleTarget mx pr p q →
        ¬ ((mx.distance p q : Int) ≤ maxd ∧ ∀ f, fd = some f → mx.distance p q = f)) := by
  constructor
  · intro ts d cl h
    obtain ⟨hts, htne, hdle, hdk, hfd, hmin, hcl⟩ := nearest_point_eq_some h
    refine ⟨hdle, hfd, htne, ?_, ?_, hcl⟩
    · intro q
      rw [hts, mem_availTargets]
      unfold FeasibleTarget
      tauto
    · intro hnone q hq
      have hqk : mx.distance p q ∈ mx.distKeys p :=
        (mem_distKeys mx p _).mpr ⟨q, hq.1, rfl⟩
      by_cases hle : (mx.distance p q : Int) ≤ maxd
      · apply hmin hnone _ hqk hle
        intro hav
        have : q ∈ mx.availTargets pr p (mx.distance p q) :=
          (mem_availTargets mx pr p _ q).mpr ⟨hq.1, rfl, hq.2.1, hq.2.2⟩
        rw [hav] at this
        exact absurd this (List.not_mem_nil q)
      · have : (d : Int) < (mx.distance p q : Int) := lt_of_le_of_lt hdle (by omega)
        exact_mod_cast le_of_lt this
  · rw [nearest_point_eq_none_iff]
    constructor
    · intro hk q hq ⟨hle, hf⟩
      have hqk : mx.distance p q ∈ mx.distKeys p :=
        (mem_distKeys mx p _).mpr ⟨q, hq.1, rfl⟩
      refine hk (mx.distance p q) ((mem_searchKeys mx p _ fd).mpr ⟨hqk, hf⟩) ⟨hle, ?_⟩
      intro hav
      have : q ∈ mx.availTargets pr p (mx.distance p q) :=
        (mem_availTargets mx pr p _ q).mpr ⟨hq.1, rfl, hq.2.1, hq.2.2⟩
      rw [hav] at this
      exact absurd this (List.not_mem_nil q)
    · intro ht x hx ⟨hle, hav⟩
      obtain ⟨q, hq⟩ := List.exists_mem_of_ne_nil _ hav
      obtain ⟨hrow, hdist, hun, hal⟩ := (mem_availTargets mx pr p x q).mp hq
      obtain ⟨hxk, hxf⟩ := (mem_searchKeys mx p x fd).mp hx
      refine ht q ⟨hrow, hun, hal⟩ ⟨by rw [hdist]; exact hle, ?_⟩
      intro f hf
      rw [hdist]
      exact hxf f hf

/-- C4 witness: on the concrete three-point instance the query from the
depot with kind `N` and bound 20 returns target 1 at distance 5, and the
characterisation instantiates there. -/
theorem nearest_point_spec_witness :
    (Matrix.init 1 1 [[0,5,10],[5,0,3],[10,3,0]]).nearest_point 0 20
        (some PointRestriction.N) none = some ([1], 5, true) ∧
    ((5 : Nat) : Int) ≤ 20 ∧
    ([1] : List Nat) ≠ [] ∧
    5 ≤ (Matrix.init 1 1 [[0,5,10],[5,0,3],[10,3,0]]).distance 0 1 := by
  have h := (nearest_point_spec (Matrix.init 1 1 [[0,5,10],[5,0,3],[10,3,0]]) 0 20
    (some PointRestriction.N) none).1 [1] 5 true (by decide)
  exact ⟨by decide, h.1, h.2.2.1, h.2.2.2.2.1 rfl 1 ⟨by decide, by decide, by decide⟩⟩

/-- C6 counterexample: freeing the unoccupied N-point 1 on a fresh matrix
raises (the flag is `false`) but still decrements the occupied-N counter,
so the failed call does not leave the counter unchanged. -/
theorem free_counterexample :
    ((Matrix.init 1 1 [[0,5,10],[5,0,3],[10,3,0]]).free 1).2 = false ∧
    ((Matrix.init 1 1 [[0,5,10],[5,0,3],[10,3,0]]).free 1).1.used_n ≠
      (Matrix.init 1 1 [[0,5,10],[5,0,3],[10,3,0]]).used_n := by
  decide

/-- C6 (amended): `free(p)` always subtracts one from the occupied-N
counter for an N-point (even when the call then fails); for an unoccupied
`p` it fails and leaves the occupied set unchanged, for an occupied `p`
it succeeds and removes `p` from the occupied set.  Dimensions and the
raw table are untouched. -/
theorem free_spec (mx : Matrix) (p : Nat) :
    (mx.free p).1.n = mx.n ∧ (mx.free p).1.m = mx.m ∧ (mx.free p).1.mat = mx.mat ∧
    (mx.free p).1.used_n = mx.used_n - (if mx.is_n_point p then 1 else 0) ∧
    (p ∉ mx.used → (mx.free p).2 = false ∧ (mx.free p).1.used = mx.used) ∧
    (p ∈ mx.used → (mx.free p).2 = true ∧ (mx.free p).1.used = mx.used.erase p) := by
  unfold Matrix.free
  dsimp only
  by_cases hn : mx.is_n_point p <;>
    by_cases hu : p ∈ mx.used <;>
      simp [hn, hu, Matrix.is_used]

/-- The concrete 3-point matrix with the M-point 2 occupied, for the C6
witness. -/
def mx6occupied : Matrix :=
  ((Matrix.init 1 1 [[0,5,10],[5,0,3],[10,3,0]]).use 2).getD (Matrix.init 0 0 [])

/-- C6 witness: instantiation of `free_spec` on a fresh 3-point matrix at
the unoccupied N-point 1 and, after `use 2`, at the occupied M-point 2. -/
theorem free_spec_witness :
    (((Matrix.init 1 1 [[0,5,10],[5,0,3],[10,3,0]]).free 1).2 = false ∧
      ((Matrix.init 1 1 [[0,5,10],[5,0,3],[10,3,0]]).free 1).1.used =
        (Matrix.init 1 1 [[0,5,10],[5,0,3],[10,3,0]]).used) ∧
    ((mx6occupied.free 2).2 = true ∧
      (mx6occupied.free 2).1.used = mx6occupied.used.erase 2) := by
  refine ⟨?_, ?_⟩
  · exact (free_spec (Matrix.init 1 1 [[0,5,10],[5,0,3],[10,3,0]]) 1).2.2.2.2.1 (by decide)
  · exact (free_spec mx6occupied 2).2.2.2.2.2 (by decide)

theorem distance_congr {mx1 mx2 : Matrix} (h : mx1.mat = mx2.mat) :
    mx1.distance = mx2.distance := by
  funext a b
  unfold Matrix.distance
  rw [h]

theorem is_n_point_congr {mx1 mx2 : Matrix} (h : mx1.n = mx2.n) :
    mx1.is_n_point = mx2.is_n_point := by
  funext a
  unfold Matrix.is_n_point
  rw [h]

theorem is_m_point_congr {mx1 mx2 : Matrix} (hn : mx1.n = mx2.n) (hm : mx1.m = mx2.m) :
    mx1.is_m_point = mx2.is_m_point := by
  funext a
  unfold Matrix.is_m_point
  rw [hn, hm]

/-- Explicit form of a successful `use`. -/
theorem use_eq_some (mx : Matrix) (pt : Nat) (h : mx.is_used pt = false) :
    mx.use pt = some { mx with
      used_n := if mx.is_n_point pt then mx.used_n + 1 else mx.used_n,
      used := insert pt mx.used } := by
  unfold Matrix.use
  rw [h]
  rfl

/-- Explicit form of a successful `_add_route_point`. -/
theorem add_route_point_eq (t : Truck) (pt : Nat) (d : Int)
    (h : t.matrix.is_used pt = false) :
    t.add_route_point pt d = some { t with
      route := t.route ++ [pt],
      distance := t.distance + d,
      cargo := if t.matrix.is_n_point pt then t.cargo + 1 else t.cargo - 1,
      matrix := { t.matrix with
        used_n := if t.matrix.is_n_point pt then t.matrix.used_n + 1 else t.matrix.used_n,
        used := insert pt t.matrix.used } } := by
  unfold Truck.add_route_point
  dsimp only
  rw [use_eq_some t.matrix pt h]

/-- The truck state after one pop of the `unload` loop. -/
def popped (t : Truck) (r : List Nat) (pt : Nat) : Truck :=
  { t with
    route := r,
    matrix := (t.matrix.free pt).1,
    distance := t.distance - ((t.matrix.free pt).1.distance (r.getLastD 0) pt : Int),
    cargo := if (t.matrix.free pt).1.is_m_point pt then t.cargo + 1 else t.cargo - 1 }

/-- `unload(len(route) - 2)` — the exact call `_unload_one` makes — pops
exactly the route tail. -/
theorem unload_pop (t : Truck) (r : List Nat) (pt : Nat)
    (hr : t.route = r ++ [pt]) (hok : (t.matrix.free pt).2 = true) :
    t.unload ((t.route.length : Int) - 2) = some (popped t r pt) := by
  have hlen : t.route.length = r.length + 1 := by rw [hr]; simp
  unfold Truck.unload
  have hne : t.route.isEmpty = false := by rw [hr]; simp
  have hguard : ¬ ((t.route.length : Int) - 1 ≤ (t.route.length : Int) - 2) := by omega
  rw [hne]
  simp only [Bool.false_eq_true, false_and, if_false, hguard, if_false]
  rw [hlen]
  unfold Truck.unloadLoop
  rw [if_neg (by rw [hlen]; push_cast; omega)]
  have hlast : t.route.getLast? = some pt := by rw [hr]; exact List.getLast?_concat _
  rw [hlast]
  dsimp only
  rw [if_pos hok]
  have hdl : t.route.dropLast = r := by rw [hr]; simp
  rw [hdl]
  unfold Truck.unloadLoop
  rw [if_pos (by push_cast; omega)]
  unfold popped
  rfl

/-- C7: appending an unoccupied N- or M-point through `_add_route_point`
with its true matrix distance and then immediately popping it through the
unload path (`unload(len(route) - 2)`, exactly as `_unload_one` does)
restores the occupancy set, the occupied-N counter, `distance_used`,
cargo and the route to their prior values. -/
theorem add_unload_roundtrip (t : Truck) (point : Nat)
    (hu : point ∉ t.matrix.used)
    (hnm : t.matrix.is_n_point point = true ∨ t.matrix.is_m_point point = true) :
    ∃ t1 t2,
      t.add_route_point point (t.matrix.distance t.get_position point : Int) = some t1 ∧
      t1.unload ((t1.route.length : Int) - 2) = some t2 ∧
      t2.matrix.used = t.matrix.used ∧ t2.matrix.used_n = t.matrix.used_n ∧
      t2.matrix.n = t.matrix.n ∧ t2.matrix.m = t.matrix.m ∧ t2.matrix.mat = t.matrix.mat ∧
      t2.distance = t.distance ∧ t2.cargo = t.cargo ∧ t2.route = t.route := by
  have hused : t.matrix.is_used point = false := (is_used_false_iff _ _).mpr hu
  have hadd := add_route_point_eq t point (t.matrix.distance t.get_position point : Int) hused
  set t1 : Truck := { t with
    route := t.route ++ [point],
    distance := t.distance + (t.matrix.distance t.get_position point : Int),
    cargo := if t.matrix.is_n_point point then t.cargo + 1 else t.cargo - 1,
    matrix := { t.matrix with
      used_n := if t.matrix.is_n_point point then t.matrix.used_n + 1 else t.matrix.used_n,
      used := insert point t.matrix.used } } with ht1
  have hmem1 : point ∈ t1.matrix.used := by
    rw [ht1]
    exact Finset.mem_insert_self point t.matrix.used
  have hfr := free_spec t1.matrix point
  have hok : (t1.matrix.free point).2 = true := (hfr.2.2.2.2.2 hmem1).1
  have hpop := unload_pop t1 t.route point (by rw [ht1]) hok
  refine ⟨t1, popped t1 t.route point, hadd, hpop, ?_, ?_, ?_, ?_, ?_, ?_, ?_, rfl⟩
  · show (t1.matrix.free point).1.used = t.matrix.used
    rw [(hfr.2.2.2.2.2 hmem1).2]
    show (insert point t.matrix.used).erase point = t.matrix.used
    exact Finset.erase_insert hu
  · show (t1.matrix.free point).1.used_n = t.matrix.used_n
    rw [hfr.2.2.2.1]
    show (if t.matrix.is_n_point point then t.matrix.used_n + 1 else t.matrix.used_n) -
      (if t1.matrix.is_n_point point then 1 else 0) = t.matrix.used_n
    have : t1.matrix.is_n_point point = t.matrix.is_n_point point := rfl
    rw [this]
    by_cases hn : t.matrix.is_n_point point = true <;> simp [hn]
  · exact hfr.1
  · exact hfr.2.1
  · exact hfr.2.2.1
  · show t1.distance - ((t1.matrix.free point).1.distance (t.route.getLastD 0) point : Int)
      = t.distance
    rw [distance_congr (hfr.2.2.1 : (t1.matrix.free point).1.mat = t1.matrix.mat)]
    show t.distance + (t.matrix.distance t.get_position point : Int) -
      (t.matrix.distance (t.route.getLastD 0) point : Int) = t.distance
    unfold Truck.get_position
    ring
  · show (if (t1.matrix.free point).1.is_m_point point then t1.cargo + 1 else t1.cargo - 1)
      = t.cargo
    have hmeq : (t1.matrix.free point).1.is_m_point = t.matrix.is_m_point :=
      is_m_point_congr (by rw [hfr.1]) (by rw [hfr.2.1])
    rw [hmeq]
    show (if t.matrix.is_m_point point then
        (if t.matrix.is_n_point point then t.cargo + 1 else t.cargo - 1) + 1
      else (if t.matrix.is_n_point point then t.cargo + 1 else t.cargo - 1) - 1) = t.cargo
    rcases hnm with hn | hm
    · have hm' : t.matrix.is_m_point point = false := by
        rcases Bool.eq_false_or_eq_true (t.matrix.is_m_point point) with h | h
        · exact absurd ⟨hn, h⟩ (not_n_and_m t.matrix point)
        · exact h
      rw [hn, hm']
      simp
    · have hn' : t.matrix.is_n_point point = false := by
        rcases Bool.eq_false_or_eq_true (t.matrix.is_n_point point) with h | h
        · exact absurd ⟨h, hm⟩ (not_n_and_m t.matrix point)
        · exact h
      rw [hm, hn']
      simp

/-- The reference three-point matrix (N=1, M=1) of the specification
scenario: distances d(0,1)=5, d(0,2)=10, d(1,2)=3, symmetric, zero
diagonal. -/
def mx9 : Matrix := Matrix.init 1 1 [[0,5,10],[5,0,3],[10,3,0]]

/-- A fresh truck with fuel 20 on the reference matrix, no hint, no
forced first-hop distance. -/
def truck9 : Truck := Truck.init 0 20 mx9 [] none

/-- C7 witness: instantiation of the round-trip law on the fresh truck at
the unoccupied N-point 1. -/
theorem add_unload_roundtrip_witness :
    (1 : Nat) ∉ truck9.matrix.used ∧
    ∃ t1 t2,
      truck9.add_route_point 1 (truck9.matrix.distance truck9.get_position 1 : Int) = some t1 ∧
      t1.unload ((t1.route.length : Int) - 2) = some t2 ∧
      t2.matrix.used = truck9.matrix.used ∧ t2.matrix.used_n = truck9.matrix.used_n ∧
      t2.matrix.n = truck9.matrix.n ∧ t2.matrix.m = truck9.matrix.m ∧
      t2.matrix.mat = truck9.matrix.mat ∧
      t2.distance = truck9.distance ∧ t2.cargo = truck9.cargo ∧ t2.route = truck9.route :=
  ⟨by decide, add_unload_roundtrip truck9 1 (by decide) (Or.inl (by decide))⟩

/-- The truck fields that one `calculate` loop iteration may only copy
before reaching a route extension or a stop: everything except the
safepoint/unloading bookkeeping and the hint cursor. -/
def Minor (t u : Truck) : Prop :=
  u.route = t.route ∧ u.matrix = t.matrix ∧ u.cargo = t.cargo ∧ u.distance = t.distance ∧
  u.fuel = t.fuel ∧ u.capacity = t.capacity ∧ u.hint = t.hint ∧ u.done = t.done ∧
  u.initial_distance = t.initial_distance ∧ u.alternatives = t.alternatives

theorem Minor.refl (t : Truck) : Minor t t :=
  ⟨rfl, rfl, rfl, rfl, rfl, rfl, rfl, rfl, rfl, rfl⟩

theorem minor_trans {t u v : Truck} (h1 : Minor t u) (h2 : Minor u v) : Minor t v := by
  obtain ⟨a1, a2, a3, a4, a5, a6, a7, a8, a9, a10⟩ := h1
  obtain ⟨b1, b2, b3, b4, b5, b6, b7, b8, b9, b10⟩ := h2
  exact ⟨b1.trans a1, b2.trans a2, b3.trans a3, b4.trans a4, b5.trans a5,
    b6.trans a6, b7.trans a7, b8.trans a8, b9.trans a9, b10.trans a10⟩

/-- The hint branch of the loop body took point `pt` at distance `d`. -/
def TookHint (u : Truck) (pt : Nat) (d : Int) : Prop :=
  u.hint_used = false ∧ u.hint.length ≥ u.route.length + 1 ∧
  u.hint.getD u.route.length 0 = pt ∧ u.matrix.is_used pt = false ∧
  d = (u.matrix.distance u.get_position pt : Int)

/-- The query branch of the loop body took `pt` (the first returned
target) at distance `d` through `nearest_point`. -/
def TookQuery (u : Truck) (pt : Nat) (d : Int) : Prop :=
  ∃ pts dn cl,
    u.matrix.nearest_point u.get_position (u.fuel - u.distance) u.queryRestriction
      (if u.route.length = 0 then u.initial_distance else none) = some (pts, dn, cl) ∧
    pt = pts.headD 0 ∧ d = (dn : Int) ∧ pts = u.matrix.availTargets u.queryRestriction u.get_position dn

/-- Effect of a successful route extension of state `u` with point `pt`
at distance `d`, producing `t'`. -/
def ExtendTo (u : Truck) (pt : Nat) (d : Int) (t' : Truck) : Prop :=
  (TookHint u pt d ∨ TookQuery u pt d) ∧
  u.matrix.is_used pt = false ∧
  t'.route = u.route ++ [pt] ∧
  t'.distance = u.distance + d ∧
  t'.cargo = (if u.matrix.is_n_point pt then u.cargo + 1 else u.cargo - 1) ∧
  t'.matrix.used = insert pt u.matrix.used ∧
  t'.matrix.used_n = (if u.matrix.is_n_point pt then u.matrix.used_n + 1 else u.matrix.used_n) ∧
  t'.matrix.n = u.matrix.n ∧ t'.matrix.m = u.matrix.m ∧ t'.matrix.mat = u.matrix.mat ∧
  t'.fuel = u.fuel ∧ t'.capacity = u.capacity ∧ t'.hint = u.hint ∧ t'.done = u.done ∧
  t'.unloading = false

/-- One pop of the unload loop relates `t` to `popped t r pt`. -/
def PopOne (t u : Truck) : Prop :=
  ∃ r pt, t.route = r ++ [pt] ∧ (t.matrix.free pt).2 = true ∧ u = popped t r pt

/-- Reflexive-transitive closure of single pops: what any completed
unload run does to the truck state. -/
inductive Pops : Truck → Truck → Prop
  | refl (t : Truck) : Pops t t
  | step {t u v : Truck} : PopOne t u → Pops u v → Pops t v

theorem pops_trans {t u v : Truck} (h1 : Pops t u) (h2 : Pops u v) : Pops t v := by
  induction h1 with
  | refl _ => exact h2
  | step hp _ ih => exact Pops.step hp (ih h2)

theorem unloadLoop_pops :
    ∀ (fuel : Nat) (t : Truck) (tgt : Int) (t' : Truck),
      Truck.unloadLoop fuel t tgt = some t' → Pops t t' := by
  intro fuel
  induction fuel with
  | zero =>
      intro t tgt t' h
      unfold Truck.unloadLoop at h
      split at h
      · injection h with h; subst h; exact Pops.refl t
      · exact absurd h (by simp)
  | succ fuel ih =>
      intro t tgt t' h
      unfold Truck.unloadLoop at h
      split at h
      · injection h with h; subst h; exact Pops.refl t
      · rename_i hne
        cases hlast : t.route.getLast? with
        | none => rw [hlast] at h; exact absurd h (by simp)
        | some pt =>
            rw [hlast] at h
            dsimp only at h
            obtain ⟨hne2, heq⟩ := List.mem_getLast?_eq_getLast hlast
            have hr : t.route = t.route.dropLast ++ [pt] := by
              rw [heq]; exact (List.dropLast_append_getLast hne2).symm
            by_cases hok : (t.matrix.free pt).2 = true
            · rw [if_pos hok] at h
              refine Pops.step ⟨t.route.dropLast, pt, hr, hok, rfl⟩ ?_
              exact ih _ tgt t' h
            · rw [if_neg hok] at h
              exact absurd h (by simp)

theorem unload_pops {t : Truck} {tgt : Int} {t' : Truck}
    (h : t.unload tgt = some t') : Pops t t' := by
  unfold Truck.unload at h
  split at h
  · injection h with h; subst h; exact Pops.refl t
  · split at h
    · exact absurd h (by simp)
    · exact unloadLoop_pops _ t tgt t' h

theorem unload_one_go_pops :
    ∀ (fuel : Nat) (t t' : Truck), Truck.unload_one_go fuel t = some t' → Pops t t' := by
  intro fuel
  induction fuel with
  | zero => intro t t' h; exact absurd h (by simp [Truck.unload_one_go])
  | succ fuel ih =>
      intro t t' h
      unfold Truck.unload_one_go at h
      cases hu : t.unload ((t.route.length : Int) - 2) with
      | none => rw [hu] at h; exact absurd h (by simp)
      | some t1 =>
          rw [hu] at h
          dsimp only at h
          split at h
          · injection h with h; subst h; exact unload_pops hu
          · exact pops_trans (unload_pops hu) (ih t1 t' h)

theorem unload_one_pops {t t' : Truck} (h : t.unload_one = some t') : Pops t t' :=
  unload_one_go_pops _ t t' h

theorem clearUnloading_eq (t : Truck) : clearUnloading t = { t with unloading := false } := by
  unfold clearUnloading
  by_cases h : t.unloading = true
  · rw [if_pos h]
  · rw [if_neg h]
    cases t
    simp_all

theorem recordAlternatives_route (t : Truck) (pts : List Nat) (c : Bool) :
    (t.recordAlternatives pts c).route = t.route := by
  unfold Truck.recordAlternatives; split <;> rfl

theorem recordAlternatives_matrix (t : Truck) (pts : List Nat) (c : Bool) :
    (t.recordAlternatives pts c).matrix = t.matrix := by
  unfold Truck.recordAlternatives; split <;> rfl

theorem recordAlternatives_cargo (t : Truck) (pts : List Nat) (c : Bool) :
    (t.recordAlternatives pts c).cargo = t.cargo := by
  unfold Truck.recordAlternatives; split <;> rfl

theorem recordAlternatives_distance (t : Truck) (pts : List Nat) (c : Bool) :
    (t.recordAlternatives pts c).distance = t.distance := by
  unfold Truck.recordAlternatives; split <;> rfl

theorem recordAlternatives_fuel (t : Truck) (pts : List Nat) (c : Bool) :
    (t.recordAlternatives pts c).fuel = t.fuel := by
  unfold Truck.recordAlternatives; split <;> rfl

theorem recordAlternatives_capacity (t : Truck) (pts : List Nat) (c : Bool) :
    (t.recordAlternatives pts c).capacity = t.capacity := by
  unfold Truck.recordAlternatives; split <;> rfl

theorem recordAlternatives_hint (t : Truck) (pts : List Nat) (c : Bool) :
    (t.recordAlternatives pts c).hint = t.hint := by
  unfold Truck.recordAlternatives; split <;> rfl

theorem recordAlternatives_done (t : Truck) (pts : List Nat) (c : Bool) :
    (t.recordAlternatives pts c).done = t.done := by
  unfold Truck.recordAlternatives; split <;> rfl

theorem recordAlternatives_unloading (t : Truck) (pts : List Nat) (c : Bool) :
    (t.recordAlternatives pts c).unloading = t.unloading := by
  unfold Truck.recordAlternatives; split <;> rfl

theorem headD_mem_of_ne_nil {l : List Nat} (h : l ≠ []) : l.headD 0 ∈ l := by
  cases l with
  | nil => exact absurd rfl h
  | cons a l => exact List.mem_cons_self a l

/-- Case analysis of the extension part of the loop body: it either
commits a point (hint replay or query), stops with only the hint cursor
advanced, or aborts on a fatal exception. -/
theorem extendStep_cases (u : Truck) :
    (∃ pt d t', u.extendStep = TryOut.ok t' ∧ ExtendTo u pt d t')
  ∨ (∃ v, u.extendStep = TryOut.stop v ∧ Minor u v ∧ v.unloading = u.unloading ∧
      v.cargo = u.cargo)
  ∨ u.extendStep = TryOut.exc := by
  by_cases hh : ((! u.hint_used) = true ∧ u.hint.length ≥ u.route.length + 1)
  · -- hint branch
    by_cases hused : u.matrix.is_used (u.hint.getD u.route.length 0) = true
    · right; right
      unfold Truck.extendStep
      rw [if_pos hh]
      dsimp only
      rw [if_pos hused]
    · have husedF : u.matrix.is_used (u.hint.getD u.route.length 0) = false :=
        Bool.eq_false_iff.mpr hused
      have hadd := add_route_point_eq u (u.hint.getD u.route.length 0)
        ((u.matrix.distance u.get_position (u.hint.getD u.route.length 0) : Nat) : Int) husedF
      have hE : u.extendStep = TryOut.ok (clearUnloading { u with
          route := u.route ++ [u.hint.getD u.route.length 0],
          distance := u.distance +
            ((u.matrix.distance u.get_position (u.hint.getD u.route.length 0) : Nat) : Int),
          cargo := if u.matrix.is_n_point (u.hint.getD u.route.length 0) then u.cargo + 1
            else u.cargo - 1,
          matrix := { u.matrix with
            used_n := if u.matrix.is_n_point (u.hint.getD u.route.length 0) then
              u.matrix.used_n + 1 else u.matrix.used_n,
            used := insert (u.hint.getD u.route.length 0) u.matrix.used } }) := by
        unfold Truck.extendStep
        rw [if_pos hh]
        dsimp only
        rw [if_neg hused, hadd]
      left
      refine ⟨u.hint.getD u.route.length 0,
        ((u.matrix.distance u.get_position (u.hint.getD u.route.length 0) : Nat) : Int),
        _, hE, ?_⟩
      refine ⟨Or.inl ⟨by simpa using hh.1, hh.2, rfl, husedF, rfl⟩, husedF, ?_⟩
      rw [clearUnloading_eq]
      exact ⟨rfl, rfl, rfl, rfl, rfl, rfl, rfl, rfl, rfl, rfl, rfl, rfl, rfl⟩
  · -- query branch
    cases hnp : u.matrix.nearest_point u.get_position (u.fuel - u.distance) u.queryRestriction
        (if u.route.length = 0 then u.initial_distance else none) with
    | none =>
        right; left
        refine ⟨{ u with hint_used := true }, ?_, ?_⟩
        · unfold Truck.extendStep
          rw [if_neg hh]
          dsimp only
          rw [show Matrix.nearest_point ({ u with hint_used := true } : Truck).matrix
              (Truck.get_position { u with hint_used := true })
              (({ u with hint_used := true } : Truck).fuel -
                ({ u with hint_used := true } : Truck).distance)
              (Truck.queryRestriction { u with hint_used := true })
              (if ({ u with hint_used := true } : Truck).route.length = 0 then
                ({ u with hint_used := true } : Truck).initial_distance else none)
            = u.matrix.nearest_point u.get_position (u.fuel - u.distance) u.queryRestriction
              (if u.route.length = 0 then u.initial_distance else none) from rfl, hnp]
        · exact ⟨⟨rfl, rfl, rfl, rfl, rfl, rfl, rfl, rfl, rfl, rfl⟩, rfl, rfl⟩
    | some res =>
        obtain ⟨pts, dn, cl⟩ := res
        obtain ⟨hts, htne, hdle, hdk, hfd, hmin, hcl⟩ := nearest_point_eq_some hnp
        have hptmem : pts.headD 0 ∈ pts := headD_mem_of_ne_nil htne
        have hptav : pts.headD 0 ∈
            u.matrix.availTargets u.queryRestriction u.get_position dn := by
          rw [← hts]; exact hptmem
        have hptun : u.matrix.is_used (pts.headD 0) = false := by
          rw [is_used_false_iff]
          exact ((mem_availTargets _ _ _ _ _).mp hptav).2.2.1
        have hrec : (Truck.recordAlternatives { u with hint_used := true } pts cl).matrix.is_used
            (pts.headD 0) = false := by
          rw [recordAlternatives_matrix]
          exact hptun
        have hadd := add_route_point_eq
          (Truck.recordAlternatives { u with hint_used := true } pts cl)
          (pts.headD 0) ((dn : Nat) : Int) hrec
        have hE : u.extendStep = TryOut.ok (clearUnloading
            { Truck.recordAlternatives { u with hint_used := true } pts cl with
              route := (Truck.recordAlternatives { u with hint_used := true } pts cl).route
                ++ [pts.headD 0],
              distance := (Truck.recordAlternatives { u with hint_used := true } pts cl).distance
                + ((dn : Nat) : Int),
              cargo := if (Truck.recordAlternatives { u with hint_used := true } pts
                  cl).matrix.is_n_point (pts.headD 0) then
                  (Truck.recordAlternatives { u with hint_used := true } pts cl).cargo + 1
                else (Truck.recordAlternatives { u with hint_used := true } pts cl).cargo - 1,
              matrix := { (Truck.recordAlternatives { u with hint_used := true } pts
                  cl).matrix with
                used_n := if (Truck.recordAlternatives { u with hint_used := true } pts
                    cl).matrix.is_n_point (pts.headD 0) then
                    (Truck.recordAlternatives { u with hint_used := true } pts
                      cl).matrix.used_n + 1
                  else (Truck.recordAlternatives { u with hint_used := true } pts
                    cl).matrix.used_n,
                used := insert (pts.headD 0)
                  (Truck.recordAlternatives { u with hint_used := true } pts
                    cl).matrix.used } }) := by
          unfold Truck.extendStep
          rw [if_neg hh]
          dsimp only
          rw [show Matrix.nearest_point ({ u with hint_used := true } : Truck).matrix
              (Truck.get_position { u with hint_used := true })
              (({ u with hint_used := true } : Truck).fuel -
                ({ u with hint_used := true } : Truck).distance)
              (Truck.queryRestriction { u with hint_used := true })
              (if ({ u with hint_used := true } : Truck).route.length = 0 then
                ({ u with hint_used := true } : Truck).initial_distance else none)
            = u.matrix.nearest_point u.get_position (u.fuel - u.distance) u.queryRestriction
              (if u.route.length = 0 then u.initial_distance else none) from rfl, hnp]
          dsimp only
          rw [hadd]
        left
        refine ⟨pts.headD 0, ((dn : Nat) : Int), _, hE, ?_⟩
        refine ⟨Or.inr ⟨pts, dn, cl, hnp, rfl, rfl, hts⟩, hptun, ?_⟩
        rw [clearUnloading_eq]
        refine ⟨?_, ?_, ?_, ?_, ?_, ?_, ?_, ?_, ?_, ?_, ?_, ?_, ?_⟩ <;>
          simp only [recordAlternatives_route, recordAlternatives_matrix,
            recordAlternatives_cargo, recordAlternatives_distance, recordAlternatives_fuel,
            recordAlternatives_capacity, recordAlternatives_hint, recordAlternatives_done,
            recordAlternatives_unloading]

/-- Case analysis of the cargo-0 guard block: the body either delegates
to the extension step of a minor variant of the state (with the
guarantee that the variant is not in a stuck cargo-0 unloading mode) or
stops directly. -/
theorem tryBody_cases (t : Truck) :
    (∃ u, Minor t u ∧ (u.cargo ≠ 0 ∨ u.unloading = false) ∧ t.tryBody = u.extendStep)
  ∨ (∃ v, Minor t v ∧ t.tryBody = TryOut.stop v) := by
  unfold Truck.tryBody
  by_cases hc : t.cargo = 0
  · rw [if_pos hc]
    by_cases hf : (! t.matrix.have_free_n_points) = true
    · rw [if_pos hf]
      right
      exact ⟨t, Minor.refl t, rfl⟩
    · rw [if_neg hf]
      by_cases hu : t.unloading = true
      · rw [if_pos hu]
        by_cases hs : t.safepoint ≠ t.get_position
        · rw [if_pos hs]
          left
          exact ⟨{ t with safepoint := t.get_position, unloading := false },
            ⟨rfl, rfl, rfl, rfl, rfl, rfl, rfl, rfl, rfl, rfl⟩, Or.inr rfl, rfl⟩
        · rw [if_neg hs]
          right
          exact ⟨t, Minor.refl t, rfl⟩
      · rw [if_neg hu]
        left
        exact ⟨t, Minor.refl t, Or.inr (Bool.eq_false_iff.mpr hu), rfl⟩
  · rw [if_neg hc]
    left
    exact ⟨t, Minor.refl t, Or.inl hc, rfl⟩

/-- Full case analysis of one `calculate` loop iteration: it marks the
truck done at cargo 0, extends the route by one committed point, or
enters unloading mode and pops some route suffix. -/
theorem calcStep_cases {t t' : Truck} (h : t.calcStep = some t') :
    (∃ v, Minor t v ∧ v.cargo = 0 ∧ t' = { v with done := true })
  ∨ (∃ u pt d, Minor t u ∧ (u.cargo ≠ 0 ∨ u.unloading = false) ∧ ExtendTo u pt d t')
  ∨ (∃ v, Minor t v ∧ v.cargo ≠ 0 ∧ Pops { v with unloading := true } t') := by
  unfold Truck.calcStep at h
  rcases tryBody_cases t with ⟨u, hmin, hcond, htb⟩ | ⟨v, hmin, htb⟩
  · rw [htb] at h
    rcases extendStep_cases u with ⟨pt, d, t'', hE, hX⟩ | ⟨v, hE, hmv, _, _⟩ | hE
    · rw [hE] at h
      dsimp only at h
      injection h with h
      subst h
      exact Or.inr (Or.inl ⟨u, pt, d, hmin, hcond, hX⟩)
    · rw [hE] at h
      dsimp only at h
      by_cases hvc : v.cargo = 0
      · rw [if_pos hvc] at h
        injection h with h
        exact Or.inl ⟨v, minor_trans hmin hmv, hvc, h.symm⟩
      · rw [if_neg hvc] at h
        exact Or.inr (Or.inr ⟨v, minor_trans hmin hmv, hvc, unload_one_pops h⟩)
    · rw [hE] at h
      exact absurd h (by simp)
  · rw [htb] at h
    dsimp only at h
    by_cases hvc : v.cargo = 0
    · rw [if_pos hvc] at h
      injection h with h
      exact Or.inl ⟨v, hmin, hvc, h.symm⟩
    · rw [if_neg hvc] at h
      exact Or.inr (Or.inr ⟨v, hmin, hvc, unload_one_pops h⟩)

/-- The travelled distance of a route starting at `pos`: the sum of the
table distances of consecutive hops. -/
def RouteDist (mx : Matrix) : Nat → List Nat → Int
  | _, [] => 0
  | pos, q :: rest => (mx.distance pos q : Int) + RouteDist mx q rest

/-- The cargo carried after a route: +1 per N-point, -1 per M-point or
other point. -/
def CargoOf (mx : Matrix) (r : List Nat) : Int :=
  (r.map (fun p => if mx.is_n_point p then (1 : Int) else -1)).sum

/-- Well-formedness of the raw table as read from the input file: every
row has `n + m + 1` entries. -/
def Matrix.WF (mx : Matrix) : Prop :=
  ∀ row ∈ mx.mat, row.length = mx.n + mx.m + 1

theorem RouteDist_congr {mx1 mx2 : Matrix} (h : mx1.mat = mx2.mat) :
    ∀ (pos : Nat) (r : List Nat), RouteDist mx1 pos r = RouteDist mx2 pos r := by
  intro pos r
  induction r generalizing pos with
  | nil => rfl
  | cons q rest ih =>
      unfold RouteDist
      rw [distance_congr h, ih]

theorem CargoOf_congr {mx1 mx2 : Matrix} (h : mx1.n = mx2.n) (r : List Nat) :
    CargoOf mx1 r = CargoOf mx2 r := by
  unfold CargoOf
  rw [is_n_point_congr h]

theorem WF_congr {mx1 mx2 : Matrix} (hn : mx1.n = mx2.n) (hm : mx1.m = mx2.m)
    (hmat : mx1.mat = mx2.mat) (h : mx1.WF) : mx2.WF := by
  intro row hrow
  rw [← hn, ← hm]
  exact h row (hmat ▸ hrow)

theorem RouteDist_nonneg (mx : Matrix) : ∀ (pos : Nat) (r : List Nat),
    0 ≤ RouteDist mx pos r := by
  intro pos r
  induction r generalizing pos with
  | nil => exact le_refl 0
  | cons q rest ih =>
      unfold RouteDist
      have := ih q
      positivity

theorem RouteDist_append (mx : Matrix) : ∀ (pos : Nat) (r : List Nat) (q : Nat),
    RouteDist mx pos (r ++ [q]) = RouteDist mx pos r + (mx.distance (r.getLastD pos) q : Int) := by
  intro pos r
  induction r generalizing pos with
  | nil => intro q; unfold RouteDist; simp [RouteDist]
  | cons a rest ih =>
      intro q
      show RouteDist mx pos (a :: (rest ++ [q])) = _
      unfold RouteDist
      rw [ih a q]
      have : (a :: rest).getLastD pos = rest.getLastD a := by
        cases rest <;> rfl
      rw [this]
      ring

theorem CargoOf_append (mx : Matrix) (r : List Nat) (p : Nat) :
    CargoOf mx (r ++ [p]) = CargoOf mx r + (if mx.is_n_point p then (1 : Int) else -1) := by
  unfold CargoOf
  simp

/-- `free` raises exactly on unoccupied points. -/
theorem free_snd_iff (mx : Matrix) (p : Nat) : (mx.free p).2 = true ↔ p ∈ mx.used := by
  constructor
  · intro h
    by_contra hu
    have := (free_spec mx p).2.2.2.2.1 hu
    rw [this.1] at h
    exact absurd h (by simp)
  · intro h
    exact ((free_spec mx p).2.2.2.2.2 h).1

/-- Under a well-formed table, every candidate target is an N-point or an
M-point. -/
theorem rowTargets_nm {mx : Matrix} (hWF : mx.WF) {p q : Nat}
    (h : q ∈ mx.rowTargets p) :
    mx.is_n_point q = true ∨ mx.is_m_point q = true := by
  obtain ⟨hlt, hne, hnz⟩ := (mem_rowTargets mx p q).mp h
  have hrow : mx.rowLen p ≤ mx.n + mx.m + 1 := by
    unfold Matrix.rowLen
    by_cases hp : p < mx.mat.length
    · rw [List.getD_eq_getElem mx.mat [] hp]
      exact le_of_eq (hWF _ (List.getElem_mem hp))
    · rw [List.getD_eq_getElem?_getD, List.getElem?_eq_none (le_of_not_lt hp)]
      simp
  rw [is_n_point_iff, is_m_point_iff]
  omega

/-- Invariance principle for the fuelled `calculate` loop. -/
theorem calcSteps_inv {P : Truck → Prop}
    (hstep : ∀ t t', t.done = false → t.calcStep = some t' → P t → P t') :
    ∀ (k : Nat) (t t' : Truck), P t → Truck.calcSteps k t = some t' → P t' := by
  intro k
  induction k with
  | zero =>
      intro t t' hP h
      unfold Truck.calcSteps at h
      injection h with h
      subst h
      exact hP
  | succ k ih =>
      intro t t' hP h
      unfold Truck.calcSteps at h
      by_cases hd : t.done = true
      · rw [if_pos hd] at h
        injection h with h
        subst h
        exact hP
      · rw [if_neg hd] at h
        cases hs : t.calcStep with
        | none => rw [hs] at h; exact absurd h (by simp)
        | some t1 =>
            rw [hs] at h
            exact ih t1 t' (hstep t t1 (Bool.eq_false_iff.mpr hd) hs hP) h

/-- Exclusivity state: the truck route is duplicate-free, all its points
are currently occupied, and a baseline set `B` of previously committed
points (other vehicles' routes) stays occupied and disjoint from the
route. -/
def RouteExclusive (B : Finset Nat) (t : Truck) : Prop :=
  t.route.Nodup ∧ (∀ p ∈ t.route, p ∈ t.matrix.used) ∧
  (∀ p ∈ B, p ∈ t.matrix.used ∧ p ∉ t.route)

theorem routeExclusive_of_minor {B : Finset Nat} {t u : Truck} (hm : Minor t u)
    (hI : RouteExclusive B t) : RouteExclusive B u := by
  unfold RouteExclusive at hI ⊢
  rw [hm.1, hm.2.1]
  exact hI

theorem routeExclusive_popOne {B : Finset Nat} {a b : Truck} (hp : PopOne a b)
    (hI : RouteExclusive B a) : RouteExclusive B b := by
  obtain ⟨r, pt, hr, hok, rfl⟩ := hp
  obtain ⟨hnd, hru, hB⟩ := hI
  have hused : (a.matrix.free pt).1.used = a.matrix.used.erase pt :=
    ((free_spec a.matrix pt).2.2.2.2.2 ((free_snd_iff a.matrix pt).mp hok)).2
  have hndr : (r ++ [pt]).Nodup := hr ▸ hnd
  have hptr : pt ∉ r := by
    intro hc
    exact (List.disjoint_of_nodup_append hndr) hc (List.mem_singleton_self pt)
  refine ⟨?_, ?_, ?_⟩
  · exact (List.sublist_append_left r [pt]).nodup hndr
  · intro p hp2
    show p ∈ (a.matrix.free pt).1.used
    rw [hused]
    refine Finset.mem_erase.mpr ⟨fun hc => hptr (hc ▸ hp2), ?_⟩
    exact hru p (by rw [hr]; exact List.mem_append_left _ hp2)
  · intro p hpB
    obtain ⟨hpu, hpr⟩ := hB p hpB
    have hpr2 : p ∉ r ∧ p ≠ pt := by
      rw [hr] at hpr
      constructor
      · exact fun hc => hpr (List.mem_append_left _ hc)
      · exact fun hc => hpr (List.mem_append_right _ (hc ▸ List.mem_singleton_self pt))
    refine ⟨?_, hpr2.1⟩
    show p ∈ (a.matrix.free pt).1.used
    rw [hused]
    exact Finset.mem_erase.mpr ⟨hpr2.2, hpu⟩

theorem routeExclusive_pops {B : Finset Nat} {a b : Truck} (hp : Pops a b)
    (hI : RouteExclusive B a) : RouteExclusive B b := by
  induction hp with
  | refl _ => exact hI
  | step h1 _ ih => exact ih (routeExclusive_popOne h1 hI)

theorem routeExclusive_step {B : Finset Nat} {t t' : Truck} (_hd : t.done = false)
    (h : t.calcStep = some t') (hI : RouteExclusive B t) : RouteExclusive B t' := by
  rcases calcStep_cases h with ⟨v, hm, hvc, rfl⟩ | ⟨u, pt, d, hm, hcond, hX⟩ |
    ⟨v, hm, hvc, hpops⟩
  · have hv := routeExclusive_of_minor hm hI
    unfold RouteExclusive at hv ⊢
    exact hv
  · have hu := routeExclusive_of_minor hm hI
    obtain ⟨hnd, hru, hB⟩ := hu
    obtain ⟨_, hunused, hroute, _, _, hins, _, _, _, _, _, _, _, _, _⟩ := hX
    have hptu : pt ∉ u.matrix.used := (is_used_false_iff _ _).mp hunused
    have hptr : pt ∉ u.route := fun hc => hptu (hru pt hc)
    refine ⟨?_, ?_, ?_⟩
    · rw [hroute]
      simp [List.nodup_append, hnd, hptr]
    · intro p hp2
      rw [hroute] at hp2
      rw [hins]
      rcases List.mem_append.mp hp2 with hp3 | hp3
      · exact Finset.mem_insert_of_mem (hru p hp3)
      · rw [List.mem_singleton.mp hp3]
        exact Finset.mem_insert_self pt _
    · intro p hpB
      obtain ⟨hpu, hpr⟩ := hB p hpB
      refine ⟨by rw [hins]; exact Finset.mem_insert_of_mem hpu, ?_⟩
      rw [hroute]
      intro hc
      rcases List.mem_append.mp hc with hp3 | hp3
      · exact hpr hp3
      · rw [List.mem_singleton.mp hp3] at hpu
        exact hptu hpu
  · have hv := routeExclusive_of_minor hm hI
    have hw : RouteExclusive B { v with unloading := true } := hv
    exact routeExclusive_pops hpops hw

/-- C1: on any matrix whose occupancy already contains a baseline set `B`
of committed points, any number of `calculate` iterations of a fresh
truck (hinted or not) keeps the route duplicate-free, keeps every route
point occupied, and keeps every baseline point occupied and outside the
route — so the routes of trucks run in sequence against one shared
matrix are pairwise disjoint and internally duplicate-free. -/
theorem calculate_global_exclusivity (mx : Matrix) (B : Finset Nat) (kk : Nat)
    (fuel : Int) (hint : List Nat) (idist : Option Nat) (k : Nat) (t' : Truck)
    (hB : ∀ p ∈ B, p ∈ mx.used)
    (h : Truck.calcSteps k (Truck.init kk fuel mx hint idist) = some t') :
    t'.route.Nodup ∧ (∀ p ∈ t'.route, p ∈ t'.matrix.used) ∧
    (∀ p ∈ B, p ∈ t'.matrix.used ∧ p ∉ t'.route) := by
  have hinit : RouteExclusive B (Truck.init kk fuel mx hint idist) := by
    refine ⟨List.nodup_nil, ?_, ?_⟩
    · intro p hp
      exact absurd hp (List.not_mem_nil p)
    · intro p hpB
      exact ⟨hB p hpB, List.not_mem_nil p⟩
  exact calcSteps_inv (fun a b hd2 hs hP => routeExclusive_step hd2 hs hP) k _ t' hinit h

/-- Fuel-accounting state for a truck driven purely by queries (no
hint): `distance_used` is the route distance and stays within the fuel
budget. -/
def FuelCore (t : Truck) : Prop :=
  t.hint = [] ∧ t.distance = RouteDist t.matrix 0 t.route ∧ t.distance ≤ t.fuel

theorem fuelCore_of_minor {t u : Truck} (hm : Minor t u) (hI : FuelCore t) : FuelCore u := by
  obtain ⟨h1, h2, _, h4, h5, _, h7, _, _, _⟩ := hm
  unfold FuelCore at hI ⊢
  rw [h1, h2, h4, h5, h7]
  exact hI

theorem fuelCore_popOne {a b : Truck} (hp : PopOne a b) (hI : FuelCore a) : FuelCore b := by
  obtain ⟨r, pt, hr, hok, rfl⟩ := hp
  obtain ⟨hhint, hcoh, hle⟩ := hI
  have hmat : (a.matrix.free pt).1.mat = a.matrix.mat := (free_spec a.matrix pt).2.2.1
  have hdd : (a.matrix.free pt).1.distance (r.getLastD 0) pt
      = a.matrix.distance (r.getLastD 0) pt := by
    rw [distance_congr hmat]
  refine ⟨hhint, ?_, ?_⟩
  · show a.distance - ((a.matrix.free pt).1.distance (r.getLastD 0) pt : Int)
      = RouteDist (a.matrix.free pt).1 0 r
    rw [hdd, RouteDist_congr hmat, hcoh, hr, RouteDist_append]
    ring
  · show a.distance - ((a.matrix.free pt).1.distance (r.getLastD 0) pt : Int) ≤ a.fuel
    have : (0 : Int) ≤ ((a.matrix.free pt).1.distance (r.getLastD 0) pt : Int) := by
      positivity
    omega

theorem fuelCore_pops {a b : Truck} (hp : Pops a b) (hI : FuelCore a) : FuelCore b := by
  induction hp with
  | refl _ => exact hI
  | step h1 _ ih => exact ih (fuelCore_popOne h1 hI)

theorem fuelCore_step {t t' : Truck} (_hd : t.done = false)
    (h : t.calcStep = some t') (hI : FuelCore t) : FuelCore t' := by
  rcases calcStep_cases h with ⟨v, hm, _, rfl⟩ | ⟨u, pt, d, hm, _, hX⟩ | ⟨v, hm, _, hpops⟩
  · have hv := fuelCore_of_minor hm hI
    exact hv
  · have hu := fuelCore_of_minor hm hI
    obtain ⟨hhint, hcoh, hle⟩ := hu
    obtain ⟨htook, hunused, hroute, hdist, _, _, _, _, _, hmat, hfuel, _, hhint2, _, _⟩ := hX
    rcases htook with hH | hQ
    · exact absurd hH.2.1 (by simp [hhint])
    · obtain ⟨pts, dn, cl, hnp, hpt, hdq, hav⟩ := hQ
      obtain ⟨hts, htne, hdle, _, _, _, _⟩ := nearest_point_eq_some hnp
      have hptm : pt ∈ u.matrix.availTargets u.queryRestriction u.get_position dn := by
        rw [← hav]
        exact hpt ▸ headD_mem_of_ne_nil htne
      have hptd : u.matrix.distance u.get_position pt = dn :=
        ((mem_availTargets _ _ _ _ _).mp hptm).2.1
      refine ⟨by rw [hhint2, hhint], ?_, ?_⟩
      · rw [hdist, hdq, RouteDist_congr hmat, hroute, RouteDist_append, hcoh]
        unfold Truck.get_position at hptd
        rw [hptd]
      · rw [hdist, hfuel, hdq]
        omega
  · have hv := fuelCore_of_minor hm hI
    exact fuelCore_pops hpops hv

/-- C3 (amended): a truck built without a hint and a non-negative fuel
budget never spends more than its budget: after any number of
`calculate` iterations the accumulated `distance_used` is the route
distance and is at most the fuel. -/
theorem fuel_budget_respected (mx : Matrix) (kk : Nat) (fuel : Int)
    (idist : Option Nat) (k : Nat) (t' : Truck)
    (hfuel : 0 ≤ fuel)
    (h : Truck.calcSteps k (Truck.init kk fuel mx [] idist) = some t') :
    t'.distance ≤ t'.fuel ∧ t'.fuel = fuel ∧
    t'.distance = RouteDist t'.matrix 0 t'.route := by
  have hinit : FuelCore (Truck.init kk fuel mx [] idist) ∧
      (Truck.init kk fuel mx [] idist).fuel = fuel := ⟨⟨rfl, rfl, hfuel⟩, rfl⟩
  have hstep : ∀ a b, a.done = false → a.calcStep = some b →
      (FuelCore a ∧ a.fuel = fuel) → (FuelCore b ∧ b.fuel = fuel) := by
    intro a b hd hs hP
    refine ⟨fuelCore_step hd hs hP.1, ?_⟩
    rcases calcStep_cases hs with ⟨v, hm, _, rfl⟩ | ⟨u, pt, d, hm, _, hX⟩ | ⟨v, hm, _, hpops⟩
    · show v.fuel = fuel
      rw [hm.2.2.2.2.1, hP.2]
    · rw [hX.2.2.2.2.2.2.2.2.2.2.1, hm.2.2.2.2.1, hP.2]
    · have : ∀ c c2, Pops c c2 → c.fuel = c2.fuel := by
        intro c c2 hp
        induction hp with
        | refl _ => rfl
        | step h1 _ ih =>
            obtain ⟨r, pt, _, _, rfl⟩ := h1
            exact ih
      rw [← this _ _ hpops]
      show v.fuel = fuel
      rw [hm.2.2.2.2.1, hP.2]
  have := calcSteps_inv hstep k _ t' hinit h
  exact ⟨this.1.2.2, this.2, this.1.2.1⟩

/-- C3 counterexample: a truck with fuel 0 replaying the hint `[1]`
exceeds its budget after the very first `calculate` iteration, because
the hint path adds the matrix distance without consulting the remaining
budget. -/
theorem fuel_budget_counterexample :
    ∃ t', Truck.calcSteps 1 (Truck.init 0 0 mx9 [1] none) = some t' ∧
      t'.fuel < t'.distance := by
  refine ⟨(Truck.calcSteps 1 (Truck.init 0 0 mx9 [1] none)).getD truck9, by decide, by decide⟩

/-- Every prefix of a route keeps its running cargo within `[0, 25]`. -/
def PrefixCargoOK (mx : Matrix) (r : List Nat) : Prop :=
  ∀ j, 0 ≤ CargoOf mx (r.take j) ∧ CargoOf mx (r.take j) ≤ 25

/-- Cargo-accounting state for a truck driven purely by queries: fixed
capacity 25, a well-formed table, a route of N/M points whose running
cargo matches the counter and stays within `[0, 25]` on every prefix. -/
def CargoCore (t : Truck) : Prop :=
  t.hint = [] ∧ t.capacity = 25 ∧ t.matrix.WF ∧
  (∀ p ∈ t.route, t.matrix.is_n_point p = true ∨ t.matrix.is_m_point p = true) ∧
  t.cargo = CargoOf t.matrix t.route ∧
  (∀ j, 0 ≤ CargoOf t.matrix (t.route.take j) ∧ CargoOf t.matrix (t.route.take j) ≤ 25)

theorem cargoCore_of_minor {t u : Truck} (hm : Minor t u) (hI : CargoCore t) : CargoCore u := by
  obtain ⟨h1, h2, h3, _, _, h6, h7, _, _, _⟩ := hm
  unfold CargoCore at hI ⊢
  rw [h1, h2, h3, h6, h7]
  exact hI

theorem cargoCore_popOne {a b : Truck} (hp : PopOne a b) (hI : CargoCore a) : CargoCore b := by
  obtain ⟨r, pt, hr, hok, rfl⟩ := hp
  obtain ⟨hhint, hcap, hWF, hNM, hcoh, hpre⟩ := hI
  have hfr := free_spec a.matrix pt
  have hn : (a.matrix.free pt).1.n = a.matrix.n := hfr.1
  have hm : (a.matrix.free pt).1.m = a.matrix.m := hfr.2.1
  have hmat : (a.matrix.free pt).1.mat = a.matrix.mat := hfr.2.2.1
  have hco : ∀ r2, CargoOf (a.matrix.free pt).1 r2 = CargoOf a.matrix r2 :=
    fun r2 => CargoOf_congr hn r2
  have hptr : pt ∈ a.route := by rw [hr]; exact List.mem_append_right _ (List.mem_singleton_self pt)
  have hptNM := hNM pt hptr
  refine ⟨hhint, hcap, WF_congr hn.symm hm.symm hmat.symm hWF, ?_, ?_, ?_⟩
  · intro p hp2
    have hpa : p ∈ a.route := by rw [hr]; exact List.mem_append_left _ hp2
    show (a.matrix.free pt).1.is_n_point p = true ∨ (a.matrix.free pt).1.is_m_point p = true
    rw [is_n_point_congr hn, is_m_point_congr hn hm]
    exact hNM p hpa
  · show (if (a.matrix.free pt).1.is_m_point pt then a.cargo + 1 else a.cargo - 1)
      = CargoOf (a.matrix.free pt).1 r
    rw [is_m_point_congr hn hm, hco]
    have hfull : a.cargo = CargoOf a.matrix r +
        (if a.matrix.is_n_point pt then (1 : Int) else -1) := by
      rw [hcoh, hr, CargoOf_append]
    rcases hptNM with hN | hM
    · have hMf : a.matrix.is_m_point pt = false := by
        rcases Bool.eq_false_or_eq_true (a.matrix.is_m_point pt) with h2 | h2
        · exact absurd ⟨hN, h2⟩ (not_n_and_m a.matrix pt)
        · exact h2
      rw [hMf, hfull, hN]
      simp
    · have hNf : a.matrix.is_n_point pt = false := by
        rcases Bool.eq_false_or_eq_true (a.matrix.is_n_point pt) with h2 | h2
        · exact absurd ⟨h2, hM⟩ (not_n_and_m a.matrix pt)
        · exact h2
      rw [hM, hfull, hNf]
      simp
  · intro j
    show 0 ≤ CargoOf (a.matrix.free pt).1 (r.take j) ∧
      CargoOf (a.matrix.free pt).1 (r.take j) ≤ 25
    rw [hco]
    by_cases hj : j ≤ r.length
    · have : r.take j = (r ++ [pt]).take j := (List.take_append_of_le_length hj).symm
      rw [this, ← hr]
      exact hpre j
    · have h1 : r.take j = r := List.take_of_length_le (by omega)
      have h2 : r = (r ++ [pt]).take r.length := by
        rw [List.take_append_of_le_length (le_refl _), List.take_length]
      rw [h1, h2, ← hr]
      exact hpre r.length

theorem cargoCore_pops {a b : Truck} (hp : Pops a b) (hI : CargoCore a) : CargoCore b := by
  induction hp with
  | refl _ => exact hI
  | step h1 _ ih => exact ih (cargoCore_popOne h1 hI)

theorem cargoCore_step {t t' : Truck} (_hd : t.done = false)
    (h : t.calcStep = some t') (hI : CargoCore t) : CargoCore t' := by
  rcases calcStep_cases h with ⟨v, hm, _, rfl⟩ | ⟨u, pt, d, hm, hcond, hX⟩ | ⟨v, hm, _, hpops⟩
  · have hv := cargoCore_of_minor hm hI
    exact hv
  · have hu := cargoCore_of_minor hm hI
    obtain ⟨hhint, hcap, hWF, hNM, hcoh, hpre⟩ := hu
    obtain ⟨htook, hunused, hroute, _, hcargo, _, _, hn, hm2, hmat, _, hcap2, hhint2, _, _⟩ := hX
    rcases htook with hH | hQ
    · exact absurd hH.2.1 (by simp [hhint])
    obtain ⟨pts, dn, cl, hnp, hpt, hdq, hav⟩ := hQ
    obtain ⟨hts, htne, _, _, _, _, _⟩ := nearest_point_eq_some hnp
    have hptm : pt ∈ u.matrix.availTargets u.queryRestriction u.get_position dn := by
      rw [← hav]
      exact hpt ▸ headD_mem_of_ne_nil htne
    obtain ⟨hptrow, _, _, hallow⟩ := (mem_availTargets _ _ _ _ _).mp hptm
    have hptNM := rowTargets_nm hWF hptrow
    have hco : ∀ r2, CargoOf t'.matrix r2 = CargoOf u.matrix r2 :=
      fun r2 => CargoOf_congr hn r2
    have hufull : 0 ≤ u.cargo ∧ u.cargo ≤ 25 := by
      have := hpre u.route.length
      rw [List.take_length, ← hcoh] at this
      exact this
    -- the committed cargo stays in range, by the restriction analysis
    have hrange : 0 ≤ t'.cargo ∧ t'.cargo ≤ 25 := by
      rw [hcargo]
      by_cases hul : u.unloading = true
      · have hR : u.queryRestriction = some PointRestriction.M := by
          simp [Truck.queryRestriction, hul]
        rw [hR] at hallow
        have hMf : u.matrix.is_m_point pt = true := hallow
        have hNf : u.matrix.is_n_point pt = false := by
          rcases Bool.eq_false_or_eq_true (u.matrix.is_n_point pt) with h2 | h2
          · exact absurd ⟨h2, hMf⟩ (not_n_and_m u.matrix pt)
          · exact h2
        have hcz : u.cargo ≠ 0 := by
          rcases hcond with hc | hc
          · exact hc
          · rw [hc] at hul; exact absurd hul (by simp)
        rw [hNf]
        simp only [Bool.false_eq_true, if_false]
        omega
      · have hulf : u.unloading = false := Bool.eq_false_iff.mpr hul
        have hR : u.queryRestriction = PointRestriction.get u.cargo u.capacity := by
          simp [Truck.queryRestriction, hulf]
        by_cases hc0 : u.cargo = 0
        · have : u.queryRestriction = some PointRestriction.N := by
            rw [hR]; unfold PointRestriction.get; rw [if_pos hc0]
          rw [this] at hallow
          have hNt : u.matrix.is_n_point pt = true := hallow
          rw [hNt, hc0]
          simp
        · by_cases hc25 : u.cargo = u.capacity
          · have : u.queryRestriction = some PointRestriction.M := by
              rw [hR]; unfold PointRestriction.get; rw [if_neg hc0, if_pos hc25]
            rw [this] at hallow
            have hMf : u.matrix.is_m_point pt = true := hallow
            have hNf : u.matrix.is_n_point pt = false := by
              rcases Bool.eq_false_or_eq_true (u.matrix.is_n_point pt) with h2 | h2
              · exact absurd ⟨h2, hMf⟩ (not_n_and_m u.matrix pt)
              · exact h2
            rw [hNf]
            simp only [Bool.false_eq_true, if_false]
            rw [hcap] at hc25
            omega
          · rw [hcap] at hc25
            by_cases hNt : u.matrix.is_n_point pt = true
            · rw [hNt]
              simp only [if_true]
              omega
            · rw [Bool.eq_false_iff.mpr hNt]
              simp only [Bool.false_eq_true, if_false]
              omega
    have hcoh2 : t'.cargo = CargoOf t'.matrix t'.route := by
      rw [hcargo, hroute, hco, CargoOf_append, ← hcoh]
      by_cases hNt : u.matrix.is_n_point pt = true
      · rw [hNt]
        simp
      · rw [Bool.eq_false_iff.mpr hNt]
        simp only [Bool.false_eq_true, if_false]
        ring
    refine ⟨by rw [hhint2, hhint], by rw [hcap2, hcap], ?_, ?_, hcoh2, ?_⟩
    · exact WF_congr hn.symm hm2.symm hmat.symm hWF
    · intro p hp2
      rw [hroute] at hp2
      rw [is_n_point_congr hn, is_m_point_congr hn hm2]
      rcases List.mem_append.mp hp2 with hp3 | hp3
      · exact hNM p hp3
      · rw [List.mem_singleton.mp hp3]
        exact hptNM
    · intro j
      by_cases hj : j ≤ u.route.length
      · rw [hroute, hco, List.take_append_of_le_length hj]
        exact hpre j
      · have hlen : t'.route.length ≤ j := by rw [hroute]; simp; omega
        rw [List.take_of_length_le hlen, ← hcoh2]
        exact hrange
  · have hv := cargoCore_of_minor hm hI
    have hw : CargoCore { v with unloading := true } := hv
    exact cargoCore_pops hpops hw

theorem pops_done {a b : Truck} (hp : Pops a b) : b.done = a.done := by
  induction hp with
  | refl _ => rfl
  | step h1 _ ih =>
      obtain ⟨r, pt, _, _, rfl⟩ := h1
      exact ih

/-- C2 (amended): a truck built without a hint on a well-formed table
keeps its cargo counter equal to the running cargo of the route, within
`[0, 25]` on every prefix of the route (hence after every extension and
every unload pop), and the counter is exactly 0 whenever the `done` flag
is set. -/
theorem cargo_bounds (mx : Matrix) (kk : Nat) (fuel : Int) (idist : Option Nat)
    (k : Nat) (t' : Truck)
    (hWF : mx.WF)
    (h : Truck.calcSteps k (Truck.init kk fuel mx [] idist) = some t') :
    PrefixCargoOK t'.matrix t'.route ∧
    0 ≤ t'.cargo ∧ t'.cargo ≤ 25 ∧ (t'.done = true → t'.cargo = 0) := by
  have hstep : ∀ a b, a.done = false → a.calcStep = some b →
      (CargoCore a ∧ (a.done = true → a.cargo = 0)) →
      (CargoCore b ∧ (b.done = true → b.cargo = 0)) := by
    intro a b hd hs hP
    refine ⟨cargoCore_step hd hs hP.1, ?_⟩
    rcases calcStep_cases hs with ⟨v, hm, hvc, rfl⟩ | ⟨u, pt, d, hm, _, hX⟩ |
      ⟨v, hm, _, hpops⟩
    · intro _
      show v.cargo = 0
      exact hvc
    · intro hbd
      rw [hX.2.2.2.2.2.2.2.2.2.2.2.2.2.1, hm.2.2.2.2.2.2.2.1, hd] at hbd
      exact absurd hbd (by simp)
    · intro hbd
      rw [pops_done hpops] at hbd
      rw [show ({ v with unloading := true } : Truck).done = v.done from rfl,
        hm.2.2.2.2.2.2.2.1, hd] at hbd
      exact absurd hbd (by simp)
  have hinit : CargoCore (Truck.init kk fuel mx [] idist) ∧
      ((Truck.init kk fuel mx [] idist).done = true →
        (Truck.init kk fuel mx [] idist).cargo = 0) := by
    refine ⟨⟨rfl, rfl, hWF, ?_, rfl, ?_⟩, fun _ => rfl⟩
    · intro p hp
      exact absurd hp (List.not_mem_nil p)
    · intro j
      show 0 ≤ CargoOf mx (List.take j []) ∧ CargoOf mx (List.take j []) ≤ 25
      rw [List.take_nil]
      exact ⟨le_refl 0, by norm_num [CargoOf]⟩
  have hfin := calcSteps_inv hstep k _ t' hinit h
  obtain ⟨⟨_, _, _, _, hcoh, hpre⟩, hdone⟩ := hfin
  have hfull := hpre t'.route.length
  rw [List.take_length, ← hcoh] at hfull
  exact ⟨hpre, hfull.1, hfull.2, hdone⟩

/-- Fallback truck for extracting computed states. -/
def truckDefault : Truck := Truck.init 0 0 (Matrix.init 0 0 []) [] none

/-- The state of the reference truck after running `calculate` to
completion (10 iterations are more than enough). -/
def truck9run : Truck := (Truck.calcSteps 10 truck9).getD truckDefault

/-- C2 counterexample: a truck replaying the hint `[2]` (the M-point)
drives its cargo counter to -1 after the very first `calculate`
iteration, because the hint path applies no kind restriction. -/
theorem cargo_counterexample :
    ∃ t', Truck.calcSteps 1 (Truck.init 0 20 mx9 [2] none) = some t' ∧ t'.cargo < 0 :=
  ⟨(Truck.calcSteps 1 (Truck.init 0 20 mx9 [2] none)).getD truckDefault, by decide, by decide⟩

theorem mx9_WF : mx9.WF := by
  show ∀ row ∈ mx9.mat, row.length = mx9.n + mx9.m + 1
  decide

/-- C2 witness: the cargo bounds instantiated on the completed reference
run. -/
theorem cargo_bounds_witness :
    mx9.WF ∧ Truck.calcSteps 10 (Truck.init 0 20 mx9 [] none) = some truck9run ∧
    (PrefixCargoOK truck9run.matrix truck9run.route ∧
      0 ≤ truck9run.cargo ∧ truck9run.cargo ≤ 25 ∧
      (truck9run.done = true → truck9run.cargo = 0)) :=
  ⟨mx9_WF, by decide, cargo_bounds mx9 0 20 none 10 truck9run mx9_WF (by decide)⟩

/-- C3 witness: the fuel bound instantiated on the completed reference
run. -/
theorem fuel_budget_respected_witness :
    (0 : Int) ≤ 20 ∧ Truck.calcSteps 10 (Truck.init 0 20 mx9 [] none) = some truck9run ∧
    (truck9run.distance ≤ truck9run.fuel ∧ truck9run.fuel = 20 ∧
      truck9run.distance = RouteDist truck9run.matrix 0 truck9run.route) :=
  ⟨by norm_num, by decide,
    fuel_budget_respected mx9 0 20 none 10 truck9run (by norm_num) (by decide)⟩

/-- The reference truck state after one `calculate` iteration: at the
N-point 1 with cargo 1, about to query again. -/
def c5T : Truck := (Truck.calcSteps 1 truck9).getD truckDefault

/-- C5 counterexample: after the first extension the truck is carrying
(cargo 1), is not unloading, yet the restriction passed to the next
query is `None` (no restriction), not `M` as the claim states. -/
theorem restriction_counterexample :
    Truck.calcSteps 1 truck9 = some c5T ∧ 0 < c5T.cargo ∧ c5T.unloading = false ∧
    ¬ c5T.queryRestriction = some PointRestriction.M := by
  decide

/-- C5 (amended): the kind passed by `calculate` to `nearest_point` is
`M` when unloading; otherwise it is `N` at cargo 0, `M` at full capacity,
and no restriction (`None`) strictly in between. -/
theorem queryRestriction_spec (t : Truck) :
    (t.unloading = true → t.queryRestriction = some PointRestriction.M) ∧
    (t.unloading = false → t.cargo = 0 → t.queryRestriction = some PointRestriction.N) ∧
    (t.unloading = false → t.cargo ≠ 0 → t.cargo = t.capacity →
      t.queryRestriction = some PointRestriction.M) ∧
    (t.unloading = false → t.cargo ≠ 0 → t.cargo ≠ t.capacity →
      t.queryRestriction = none) := by
  refine ⟨?_, ?_, ?_, ?_⟩
  · intro h
    simp [Truck.queryRestriction, h]
  · intro h hc
    simp [Truck.queryRestriction, PointRestriction.get, h, hc]
  · intro h hc hcap
    rw [show t.queryRestriction = PointRestriction.get t.cargo t.capacity from by
      simp [Truck.queryRestriction, h]]
    unfold PointRestriction.get
    rw [if_neg hc, if_pos hcap]
  · intro h hc hcap
    rw [show t.queryRestriction = PointRestriction.get t.cargo t.capacity from by
      simp [Truck.queryRestriction, h]]
    unfold PointRestriction.get
    rw [if_neg hc, if_neg hcap]

/-- C5 witness: the amended restriction rule instantiated at the fresh
reference truck (cargo 0, kind `N`) and at the state after one extension
(cargo 1 below capacity, no restriction). -/
theorem queryRestriction_spec_witness :
    (truck9.unloading = false ∧ truck9.cargo = 0 ∧
      truck9.queryRestriction = some PointRestriction.N) ∧
    (c5T.unloading = false ∧ c5T.cargo ≠ 0 ∧ c5T.cargo ≠ c5T.capacity ∧
      c5T.queryRestriction = none) :=
  ⟨⟨by decide, by decide, (queryRestriction_spec truck9).2.1 (by decide) (by decide)⟩,
   ⟨by decide, by decide, by decide,
     (queryRestriction_spec c5T).2.2.2 (by decide) (by decide) (by decide)⟩⟩

/-- C8 (amended): when a query made by the extension step of `calculate`
returns `pts` candidates at a closest-range distance and there are more
than TWO of them, the step succeeds and records exactly one alternative
(the current route plus that candidate) per candidate beyond the chosen
first one. -/
theorem alternatives_recorded (u : Truck) (pts : List Nat) (dn : Nat) (cl : Bool)
    (hhint : u.hint = [])
    (hnp : u.matrix.nearest_point u.get_position (u.fuel - u.distance) u.queryRestriction
      (if u.route.length = 0 then u.initial_distance else none) = some (pts, dn, cl))
    (hlen : pts.length > 2) (hcl : cl = true) :
    ∃ t', u.extendStep = TryOut.ok t' ∧
      t'.alternatives = u.alternatives ++ (pts.drop 1).map (fun b => u.route ++ [b]) := by
  have hh : ¬ ((! u.hint_used) = true ∧ u.hint.length ≥ u.route.length + 1) := by
    simp [hhint]
  obtain ⟨hts, htne, _, _, _, _, _⟩ := nearest_point_eq_some hnp
  have hptm : pts.headD 0 ∈ u.matrix.availTargets u.queryRestriction u.get_position dn := by
    rw [← hts]
    exact headD_mem_of_ne_nil htne
  have hptun : (Truck.recordAlternatives { u with hint_used := true } pts cl).matrix.is_used
      (pts.headD 0) = false := by
    rw [recordAlternatives_matrix]
    show u.matrix.is_used (pts.headD 0) = false
    rw [is_used_false_iff]
    exact ((mem_availTargets _ _ _ _ _).mp hptm).2.2.1
  have hadd := add_route_point_eq
    (Truck.recordAlternatives { u with hint_used := true } pts cl)
    (pts.headD 0) ((dn : Nat) : Int) hptun
  have hE : u.extendStep = TryOut.ok (clearUnloading
      { Truck.recordAlternatives { u with hint_used := true } pts cl with
        route := (Truck.recordAlternatives { u with hint_used := true } pts cl).route
          ++ [pts.headD 0],
        distance := (Truck.recordAlternatives { u with hint_used := true } pts cl).distance
          + ((dn : Nat) : Int),
        cargo := if (Truck.recordAlternatives { u with hint_used := true } pts
            cl).matrix.is_n_point (pts.headD 0) then
            (Truck.recordAlternatives { u with hint_used := true } pts cl).cargo + 1
          else (Truck.recordAlternatives { u with hint_used := true } pts cl).cargo - 1,
        matrix := { (Truck.recordAlternatives { u with hint_used := true } pts cl).matrix with
          used_n := if (Truck.recordAlternatives { u with hint_used := true } pts
              cl).matrix.is_n_point (pts.headD 0) then
              (Truck.recordAlternatives { u with hint_used := true } pts cl).matrix.used_n + 1
            else (Truck.recordAlternatives { u with hint_used := true } pts cl).matrix.used_n,
          used := insert (pts.headD 0)
            (Truck.recordAlternatives { u with hint_used := true } pts cl).matrix.used } }) := by
    unfold Truck.extendStep
    rw [if_neg hh]
    dsimp only
    rw [show Matrix.nearest_point ({ u with hint_used := true } : Truck).matrix
        (Truck.get_position { u with hint_used := true })
        (({ u with hint_used := true } : Truck).fuel -
          ({ u with hint_used := true } : Truck).distance)
        (Truck.queryRestriction { u with hint_used := true })
        (if ({ u with hint_used := true } : Truck).route.length = 0 then
          ({ u with hint_used := true } : Truck).initial_distance else none)
      = u.matrix.nearest_point u.get_position (u.fuel - u.distance) u.queryRestriction
        (if u.route.length = 0 then u.initial_distance else none) from rfl, hnp]
    dsimp only
    rw [hadd]
  refine ⟨_, hE, ?_⟩
  rw [clearUnloading_eq]
  show (Truck.recordAlternatives { u with hint_used := true } pts cl).alternatives = _
  unfold Truck.recordAlternatives
  rw [if_pos ⟨hlen, hcl⟩]

/-- The two-equally-near-candidates matrix: N-points 1 and 2 both at
distance 5 from the depot, M-point 3. -/
def mx8 : Matrix := Matrix.init 2 1 [[0,5,5,9],[5,0,7,2],[5,7,0,2],[9,2,2,0]]

/-- A fresh truck with fuel 20 on the two-candidate matrix. -/
def truck8 : Truck := Truck.init 0 20 mx8 [] none

/-- The two-candidate truck after its first `calculate` iteration. -/
def c8T : Truck := (Truck.calcSteps 1 truck8).getD truckDefault

/-- C8 counterexample: the first query of `calculate` on the
two-candidate matrix returns the two closest-range candidates 1 and 2,
yet no alternative at all is recorded, because the code requires strictly
more than two candidates (`len(points) > 2`), not more than one. -/
theorem alternatives_counterexample :
    mx8.nearest_point truck8.get_position (truck8.fuel - truck8.distance)
      truck8.queryRestriction
      (if truck8.route.length = 0 then truck8.initial_distance else none)
      = some ([1, 2], 5, true) ∧
    Truck.calcSteps 1 truck8 = some c8T ∧ c8T.alternatives = [] := by
  decide

/-- The three-equally-near-candidates matrix: N-points 1, 2 and 3 all at
distance 5 from the depot, M-point 4. -/
def mxW : Matrix :=
  Matrix.init 3 1 [[0,5,5,5,9],[5,0,7,7,2],[5,7,0,7,2],[5,7,7,0,2],[9,2,2,2,0]]

/-- A fresh truck with fuel 30 on the three-candidate matrix. -/
def truckW : Truck := Truck.init 0 30 mxW [] none

/-- C8 witness: on the three-candidate matrix the first query returns
candidates `[1, 2, 3]` at the closest-range distance 5, and the extension
step records the alternatives `[2]` and `[3]`. -/
theorem alternatives_recorded_witness :
    truckW.hint = [] ∧
    mxW.nearest_point truckW.get_position (truckW.fuel - truckW.distance)
      truckW.queryRestriction
      (if truckW.route.length = 0 then truckW.initial_distance else none)
      = some ([1, 2, 3], 5, true) ∧
    ∃ t', truckW.extendStep = TryOut.ok t' ∧
      t'.alternatives = truckW.alternatives ++
        (([1, 2, 3] : List Nat).drop 1).map (fun b => truckW.route ++ [b]) :=
  ⟨rfl, by decide,
    alternatives_recorded truckW [1, 2, 3] 5 true rfl (by decide) (by decide) rfl⟩

/-- C9: on the reference instance (N=1, M=1, K=1, fuel 20) the search
driver commits the route `[1, 2]` with score 1, the state machine run
ends done with route `[1, 2]`, total distance 8 within the budget, and
the output line is `2 1 2`. -/
theorem scenario_n1m1k1 :
    TruckProcessor.iteration [0] 1 1 [[0,5,10],[5,0,3],[10,3,0]] [20] 20 5 (fun _ => 0)
      = some (1, [(0, [1, 2])]) ∧
    Truck.calcSteps 10 truck9 = some truck9run ∧
    truck9run.done = true ∧ truck9run.get_route = [1, 2] ∧ truck9run.distance = 8 ∧
    truck9run.distance ≤ truck9run.fuel ∧ truck9run.matrix.get_used_n_points = 1 ∧
    outputLine [1, 2] = "2 1 2" := by
  refine ⟨by decide, by decide, by decide, by decide, by decide, by decide, by decide, ?_⟩
  rfl

/-- Depot-avoidance state for a hint-free truck: the depot 0 is neither
on the route nor in the occupancy set. -/
def DepotFree (t : Truck) : Prop :=
  t.hint = [] ∧ 0 ∉ t.route ∧ 0 ∉ t.matrix.used

theorem depotFree_of_minor {t u : Truck} (hm : Minor t u) (hI : DepotFree t) : DepotFree u := by
  unfold DepotFree at hI ⊢
  rw [hm.1, hm.2.1, hm.2.2.2.2.2.2.1]
  exact hI

theorem depotFree_popOne {a b : Truck} (hp : PopOne a b) (hI : DepotFree a) : DepotFree b := by
  obtain ⟨r, pt, hr, hok, rfl⟩ := hp
  obtain ⟨hhint, hroute, hused⟩ := hI
  have hu2 : (a.matrix.free pt).1.used = a.matrix.used.erase pt :=
    ((free_spec a.matrix pt).2.2.2.2.2 ((free_snd_iff a.matrix pt).mp hok)).2
  refine ⟨hhint, ?_, ?_⟩
  · intro hc
    exact hroute (by rw [hr]; exact List.mem_append_left _ hc)
  · show 0 ∉ (a.matrix.free pt).1.used
    rw [hu2]
    intro hc
    exact hused (Finset.mem_of_mem_erase hc)

theorem depotFree_pops {a b : Truck} (hp : Pops a b) (hI : DepotFree a) : DepotFree b := by
  induction hp with
  | refl _ => exact hI
  | step h1 _ ih => exact ih (depotFree_popOne h1 hI)

theorem depotFree_step {t t' : Truck} (_hd : t.done = false)
    (h : t.calcStep = some t') (hI : DepotFree t) : DepotFree t' := by
  rcases calcStep_cases h with ⟨v, hm, _, rfl⟩ | ⟨u, pt, d, hm, _, hX⟩ | ⟨v, hm, _, hpops⟩
  · have hv := depotFree_of_minor hm hI
    exact hv
  · have hu := depotFree_of_minor hm hI
    obtain ⟨hhint, hroute, hused⟩ := hu
    obtain ⟨htook, _, hroute2, _, _, hins, _, _, _, _, _, _, hhint2, _, _⟩ := hX
    have hptnz : pt ≠ 0 := by
      rcases htook with hH | hQ
      · exact absurd hH.2.1 (by simp [hhint])
      · obtain ⟨pts, dn, cl, hnp, hpt, _, hav⟩ := hQ
        obtain ⟨hts, htne, _, _, _, _, _⟩ := nearest_point_eq_some hnp
        have hptm : pt ∈ u.matrix.availTargets u.queryRestriction u.get_position dn := by
          rw [← hav]
          exact hpt ▸ headD_mem_of_ne_nil htne
        have := ((mem_availTargets _ _ _ _ _).mp hptm).1
        exact ((mem_rowTargets _ _ _).mp this).2.2
    refine ⟨by rw [hhint2, hhint], ?_, ?_⟩
    · rw [hroute2]
      intro hc
      rcases List.mem_append.mp hc with hc2 | hc2
      · exact hroute hc2
      · exact hptnz (List.mem_singleton.mp hc2).symm
    · rw [hins]
      intro hc
      rcases Finset.mem_insert.mp hc with hc2 | hc2
      · exact hptnz hc2.symm
      · exact hused hc2
  · have hv := depotFree_of_minor hm hI
    have hw : DepotFree { v with unloading := true } := hv
    exact depotFree_pops hpops hw

/-- C10: `nearest_point` never returns the depot 0 among its targets
(the distance index skips column 0 at construction), and consequently a
hint-free truck run on a matrix that does not already occupy the depot
never routes through the depot and never occupies it (never calls
`use(0)`). -/
theorem depot_excluded (mx : Matrix) (p : Nat) (maxd : Int)
    (pr : Option PointRestriction) (fd : Option Nat) (ts : List Nat) (dq : Nat) (cl : Bool)
    (kk : Nat) (fuel : Int) (idist : Option Nat) (k : Nat) (t' : Truck)
    (h1 : mx.nearest_point p maxd pr fd = some (ts, dq, cl))
    (h2 : 0 ∉ mx.used)
    (h3 : Truck.calcSteps k (Truck.init kk fuel mx [] idist) = some t') :
    0 ∉ ts ∧ 0 ∉ t'.route ∧ 0 ∉ t'.matrix.used := by
  obtain ⟨hts, _, _, _, _, _, _⟩ := nearest_point_eq_some h1
  have hdep : 0 ∉ ts := by
    rw [hts]
    intro hc
    have := ((mem_availTargets _ _ _ _ _).mp hc).1
    exact ((mem_rowTargets _ _ _).mp this).2.2 rfl
  have hinit : DepotFree (Truck.init kk fuel mx [] idist) :=
    ⟨rfl, List.not_mem_nil 0, h2⟩
  have hfin := calcSteps_inv (fun a b hd2 hs hP => depotFree_step hd2 hs hP) k _ t' hinit h3
  exact ⟨hdep, hfin.2.1, hfin.2.2⟩

/-- C10 witness: on the reference matrix, the depot query returns `[1]`
(no depot), and the completed hint-free run has no depot on its route
and never occupied it. -/
theorem depot_excluded_witness :
    mx9.nearest_point 0 20 (some PointRestriction.N) none = some ([1], 5, true) ∧
    0 ∉ mx9.used ∧ Truck.calcSteps 10 (Truck.init 0 20 mx9 [] none) = some truck9run ∧
    (0 ∉ ([1] : List Nat) ∧ 0 ∉ truck9run.route ∧ 0 ∉ truck9run.matrix.used) :=
  ⟨by decide, by decide, by decide,
    depot_excluded mx9 0 20 (some PointRestriction.N) none [1] 5 true 0 20 none 10 truck9run
      (by decide) (by decide) (by decide)⟩

/-- The three-candidate matrix with the N-point 3 already committed by
an earlier vehicle. -/
def mxW3 : Matrix := (mxW.use 3).getD (Matrix.init 0 0 [])

/-- The truck run on `mxW3` for the C1 witness, to completion. -/
def c1T : Truck := (Truck.calcSteps 12 (Truck.init 0 30 mxW3 [] none)).getD truckDefault

/-- C1 witness: on the matrix where point 3 is already committed, the
completed run keeps its route (`[1, 4]`) duplicate-free and occupied, and
keeps the baseline point 3 occupied and off the route. -/
theorem calculate_global_exclusivity_witness :
    (∀ p ∈ ({3} : Finset Nat), p ∈ mxW3.used) ∧
    Truck.calcSteps 12 (Truck.init 0 30 mxW3 [] none) = some c1T ∧
    RouteExclusive {3} c1T :=
  ⟨by decide, by decide,
    calculate_global_exclusivity mxW3 {3} 0 30 [] none 12 c1T (by decide) (by decide)⟩

end Marathon
